import Mathlib

/-!
Verification of the AlphaZeroArcade loop-controller against its specification.

This file gives a shallow embedding, in Lean 4, of the parts of the loop
controller that the verified properties talk about:

* `SelfPlayManager` (src/py/alphazero/servers/loop_control/self_play_manager.py):
  the row-budget check, game ingestion, and the flush of pending games into the
  self-play database, together with an event trace recording the order of
  socket/database side effects.
* `AlphaZeroManager` (src/py/alphazero/manager.py): directory listings,
  natural-sort ordering, `PathInfo` generation parsing, and the
  latest-generation lookups.
* `DatabaseConnectionManager`
  (src/py/alphazero/servers/loop_control/database_connection_manager.py).
* `ClientConnectionManager`
  (src/py/alphazero/servers/loop_control/client_connection_manager.py).
* `GpuContentionManager`
  (src/py/alphazero/servers/loop_control/gpu_contention_manager.py); the
  `GpuContentionTable` object it manipulates lives in a file that is not part
  of the sources, so its primitive state (active domains, ratings-priority
  flag, highest-priority queries) is modelled from the specification.

Python dictionaries are modelled as association lists (iteration order =
insertion order), database tables as lists of rows, and the sqlite side
effects of a handler as a pure state transformation plus a list of `Event`s.
-/

namespace AZArcade

/-! ## Self-play manager: row budget (`SelfPlayManager._check_row_budget`) -/

/-- Lookup in an association list from generation to cumulative submitted rows;
models reads of `self._budget_dict = defaultdict(int)` (missing key ↦ 0). -/
def budgetGet (b : List (Nat × Nat)) (g : Nat) : Nat :=
  match b.find? (fun p => p.1 == g) with
  | some p => p.2
  | none => 0

/-- Write-through update of the budget association list; models
`self._budget_dict[gen] = v` (insertion order preserved, new keys appended). -/
def budgetSet (b : List (Nat × Nat)) (g v : Nat) : List (Nat × Nat) :=
  match b with
  | [] => [(g, v)]
  | p :: rest => if p.1 = g then (g, v) :: rest else p :: budgetSet rest g v

/-- `SelfPlayManager._check_row_budget(gen, rows)`: returns `True` immediately
for gen 0 or when `max_positions_per_generation` is unset; otherwise reads the
cumulative row count for `gen`, adds `rows` to it, and returns whether the
cumulative count *before* this game was below the cap.  The returned pair is
(use_data, updated budget dict). -/
def check_row_budget (maxPositionsPerGeneration : Option Nat)
    (budget : List (Nat × Nat)) (gen rows : Nat) : Bool × List (Nat × Nat) :=
  if gen = 0 then (true, budget)
  else
    match maxPositionsPerGeneration with
    | none => (true, budget)
    | some cap =>
      let cumulative := budgetGet budget gen
      (decide (cumulative < cap), budgetSet budget gen (cumulative + rows))

/-! ## Self-play database model -/

/-- A row of the `games` table, which is also the shape of the tuples held in
`self._pending_game_data`: `(client_id, gen, start_timestamp, end_timestamp,
augmented_positions)`. -/
structure GameRec where
  client_id : Nat
  gen : Nat
  start_timestamp : Nat
  end_timestamp : Nat
  rows : Nat
deriving DecidableEq, Repr

/-- The counters reported by a worker `metrics` message. -/
structure Metrics where
  cache_hits : Nat
  cache_misses : Nat
  positions_evaluated : Nat
  batches_evaluated : Nat
  full_batches_evaluated : Nat
deriving DecidableEq, Repr

/-- A row of the `metrics` table. -/
structure MetricsRow where
  client_id : Nat
  gen : Nat
  report_timestamp : Nat
  counters : Metrics
deriving DecidableEq, Repr

/-- A row of the `self_play_metadata` table.
Modelled from the spec: the CREATE TABLE commands live in
`alphazero.logic.constants` (not part of the sources); per the spec the table
is `self_play_metadata(gen PK, games, augmented_positions, runtime,
positions_evaluated, batches_evaluated)` with numeric columns defaulting to 0
when a row is created by `INSERT OR IGNORE ... (gen) VALUES (?)`. -/
structure MetaRow where
  gen : Nat
  games : Nat
  augmented_positions : Nat
  runtime : Nat
  positions_evaluated : Nat
  batches_evaluated : Nat
deriving DecidableEq, Repr

/-- The self-play database (`self_play.db`). -/
structure SelfPlayDB where
  games : List GameRec
  self_play_metadata : List MetaRow
  metricRows : List MetricsRow
deriving DecidableEq, Repr

def emptySelfPlayDB : SelfPlayDB := ⟨[], [], []⟩

/-- `INSERT OR IGNORE INTO self_play_metadata (gen) VALUES (?)`:
appends a fresh all-zero row for `g` unless one already exists. -/
def insertOrIgnoreMeta (db : SelfPlayDB) (g : Nat) : SelfPlayDB :=
  if db.self_play_metadata.any (fun r => r.gen == g) then db
  else { db with self_play_metadata := db.self_play_metadata ++ [(⟨g, 0, 0, 0, 0, 0⟩ : MetaRow)] }

/-- The effect of `UPDATE self_play_metadata SET games = games + ?,
augmented_positions = augmented_positions + ?, runtime = runtime + ?
WHERE gen = ?` on a single row. -/
def bumpGameCounts (g nGames nAug rt : Nat) (r : MetaRow) : MetaRow :=
  if r.gen = g then
    { r with games := r.games + nGames,
             augmented_positions := r.augmented_positions + nAug,
             runtime := r.runtime + rt }
  else r

/-- `UPDATE self_play_metadata SET games = games + ?, augmented_positions =
augmented_positions + ?, runtime = runtime + ? WHERE gen = ?`. -/
def updateMetaGameCounts (db : SelfPlayDB) (g nGames nAug rt : Nat) : SelfPlayDB :=
  { db with self_play_metadata := db.self_play_metadata.map (bumpGameCounts g nGames nAug rt) }

/-- `SelfPlayManager._flush_pending_games_helper(cursor, gen, n_games,
n_augmented_positions, runtime)`. -/
def flush_pending_games_helper (db : SelfPlayDB) (g nGames nAug rt : Nat) : SelfPlayDB :=
  updateMetaGameCounts (insertOrIgnoreMeta db g) g nGames nAug rt

/-- The effect of `UPDATE self_play_metadata SET positions_evaluated =
positions_evaluated + ?, batches_evaluated = batches_evaluated + ?
WHERE gen = ?` on a single row. -/
def bumpEvalCounts (g : Nat) (m : Metrics) (r : MetaRow) : MetaRow :=
  if r.gen = g then
    { r with positions_evaluated := r.positions_evaluated + m.positions_evaluated,
             batches_evaluated := r.batches_evaluated + m.batches_evaluated }
  else r

/-- `SelfPlayManager._insert_metrics`: inserts a `metrics` row and bumps the
`positions_evaluated` / `batches_evaluated` aggregates of `self_play_metadata`
for `gen` (a bare `UPDATE ... WHERE gen = ?`, no insert-or-ignore). -/
def insert_metrics (db : SelfPlayDB) (clientId g timestamp : Nat) (m : Metrics) : SelfPlayDB :=
  let db1 := { db with metricRows := db.metricRows ++ [(⟨clientId, g, timestamp, m⟩ : MetricsRow)] }
  { db1 with self_play_metadata := db1.self_play_metadata.map (bumpEvalCounts g m) }

/-! ## Flushing pending games (`SelfPlayManager._flush_pending_games`) -/

/-- Distinct elements of a list in order of first occurrence; models the
iteration order of the `defaultdict` built by `_flush_pending_games` (Python
dict iteration order = key insertion order). -/
def firstOccs : List Nat → List Nat
  | [] => []
  | g :: rest => g :: (firstOccs rest).filter (fun h => h ≠ g)

/-- The pending tuples belonging to generation `g`. -/
def gamesFor (pending : List GameRec) (g : Nat) : List GameRec :=
  pending.filter (fun r => r.gen == g)

/-- `n_games_per_gen[g]`. -/
def nGamesPerGen (pending : List GameRec) (g : Nat) : Nat :=
  (gamesFor pending g).length

/-- `n_augmented_positions_per_gen[g]`. -/
def nAugPerGen (pending : List GameRec) (g : Nat) : Nat :=
  ((gamesFor pending g).map GameRec.rows).sum

/-- `SelfPlayManager._flush_pending_games`: if nothing is pending, returns 0;
otherwise updates the per-gen aggregates (one `_flush_pending_games_helper`
call per distinct gen, in first-occurrence order), inserts every pending tuple
into `games` via `executemany`, and returns the total number of augmented
positions.  The caller clears `self._pending_game_data`.  The `conn.aux`
bookkeeping (`gen`, `start_ts`, `total_runtime`) is abstracted into the
`connGen` and `totalRuntime` arguments; only the gen matching `connGen` is
charged the runtime.

One iteration of its `for gen, n_games in n_games_per_gen.items()` loop is
`flushStep`: `gen_runtime = total_runtime if gen == conn_gen else 0`, then
`_flush_pending_games_helper(...)`. -/
def flushStep (pending : List GameRec) (connGen : Option Nat) (totalRuntime : Nat)
    (acc : SelfPlayDB) (g : Nat) : SelfPlayDB :=
  flush_pending_games_helper acc g (nGamesPerGen pending g) (nAugPerGen pending g)
    (if connGen = some g then totalRuntime else 0)

def flush_pending_games (pending : List GameRec) (connGen : Option Nat)
    (totalRuntime : Nat) (db : SelfPlayDB) : SelfPlayDB × Nat :=
  if pending = [] then (db, 0)
  else
    let nTotal := (pending.map GameRec.rows).sum
    let gens := firstOccs (pending.map GameRec.gen)
    let db1 := gens.foldl (flushStep pending connGen totalRuntime) db
    ({ db1 with games := db1.games ++ pending }, nTotal)

/-! ## Game / metrics message handlers with event traces -/

/-- The observable side effects of a handler, in program order. -/
inductive Event where
  /-- `conn.socket.recv_file(filename)`; `saved = false` means the filename was
  `None`, i.e. the bytes were consumed off the socket and discarded. -/
  | recvFile (saved : Bool)
  /-- the `INSERT OR IGNORE` + `UPDATE` of `self_play_metadata` for one gen -/
  | updateMeta (gen : Nat)
  /-- the `executemany` insert of the pending tuples into `games` -/
  | insertGames (n : Nat)
  /-- the insert performed by `_insert_metrics` -/
  | insertMetricsRow
  /-- `db_conn.commit()` -/
  | commit
  /-- `controller.handle_new_self_play_positions(n)` -/
  | notifyTraining (n : Nat)
  /-- `conn.socket.send_json({'type': 'quit'})` -/
  | sendQuit
deriving DecidableEq, Repr

/-- The state of the self-play manager relevant to game ingestion: the budget
dict, the pending list, the set of game files written to disk (as
`(client_id, gen, end_timestamp)` triples identifying
`self-play-data/client-{id}/gen-{g}/{end_ts}.log`), and the database. -/
structure SPState where
  budget : List (Nat × Nat)
  pending : List GameRec
  files : List (Nat × Nat × Nat)
  db : SelfPlayDB
deriving DecidableEq, Repr

def initialSPState : SPState := ⟨[], [], [], emptySelfPlayDB⟩

/-- A worker `game` message. -/
structure GameMsg where
  gen : Nat
  start_timestamp : Nat
  end_timestamp : Nat
  rows : Nat
  flush : Bool
  done : Bool
  counters : Option Metrics
deriving Repr

/-- The events emitted while flushing `pending` inside a handler's
transaction. -/
def flushEvents (pending : List GameRec) : List Event :=
  if pending = [] then []
  else (firstOccs (pending.map GameRec.gen)).map Event.updateMeta
    ++ [Event.insertGames pending.length]

/-- `SelfPlayManager._handle_game(msg, conn)`.  Checks the row budget; writes
the game file iff the budget passed (the socket bytes are consumed either
way); appends to the pending list iff the budget passed; on `flush`, flushes
pending games and optional metrics in one database transaction, commits, and
only then notifies the training manager; on `done`, replies `quit`. -/
def handle_game (maxPositions : Option Nat) (clientId : Nat) (msg : GameMsg)
    (connGen : Option Nat) (totalRuntime : Nat) (st : SPState) : SPState × List Event :=
  let budgetRes := check_row_budget maxPositions st.budget msg.gen msg.rows
  let use_data := budgetRes.1
  let files' := if use_data then st.files ++ [(clientId, msg.gen, msg.end_timestamp)]
    else st.files
  let pending' := if use_data
    then st.pending ++ [⟨clientId, msg.gen, msg.start_timestamp, msg.end_timestamp, msg.rows⟩]
    else st.pending
  let st1 : SPState := ⟨budgetRes.2, pending', files', st.db⟩
  let step2 :=
    if msg.flush then
      let flushRes := flush_pending_games st1.pending connGen totalRuntime st1.db
      let afterMetrics := match msg.counters with
        | some m => (insert_metrics flushRes.1 clientId msg.gen msg.end_timestamp m,
                     [Event.insertMetricsRow])
        | none => (flushRes.1, [])
      (({ st1 with pending := [], db := afterMetrics.1 } : SPState),
        flushEvents st1.pending ++ afterMetrics.2
          ++ [Event.commit, Event.notifyTraining flushRes.2])
    else (st1, ([] : List Event))
  (step2.1, Event.recvFile use_data :: step2.2 ++ if msg.done then [Event.sendQuit] else [])

/-- A worker `metrics` message. -/
structure MetricsMsg where
  gen : Nat
  timestamp : Nat
  counters : Metrics
deriving Repr

/-- `SelfPlayManager._handle_metrics(msg, conn)`: flushes pending games and
inserts the metrics row in one transaction, commits, then notifies the
training manager. -/
def handle_metrics (clientId : Nat) (msg : MetricsMsg) (connGen : Option Nat)
    (totalRuntime : Nat) (st : SPState) : SPState × List Event :=
  let flushRes := flush_pending_games st.pending connGen totalRuntime st.db
  let db2 := insert_metrics flushRes.1 clientId msg.gen msg.timestamp msg.counters
  (({ st with pending := [], db := db2 } : SPState),
    flushEvents st.pending
      ++ [Event.insertMetricsRow, Event.commit, Event.notifyTraining flushRes.2])

/-! ## Trace checkers -/

/-- Database-write events. -/
def isWriteEvent : Event → Bool
  | .updateMeta _ => true
  | .insertGames _ => true
  | .insertMetricsRow => true
  | _ => false

/-- `notifyAfterCommitAux seen tr`: every `notifyTraining` in `tr` is preceded
by a `commit` (in `tr`, or earlier if `seen` is already true). -/
def notifyAfterCommitAux : Bool → List Event → Bool
  | _, [] => true
  | _, Event.commit :: rest => notifyAfterCommitAux true rest
  | seen, Event.notifyTraining _ :: rest => seen && notifyAfterCommitAux seen rest
  | seen, _ :: rest => notifyAfterCommitAux seen rest

/-- `singleTxnAux seen tr`: `tr` contains at most one `commit` (none if `seen`)
and no database write after a `commit`. -/
def singleTxnAux : Bool → List Event → Bool
  | _, [] => true
  | seen, Event.commit :: rest => !seen && singleTxnAux true rest
  | seen, e :: rest => !(seen && isWriteEvent e) && singleTxnAux seen rest

/-- Every database write in the trace precedes the unique commit. -/
def singleTxn (tr : List Event) : Bool := singleTxnAux false tr

/-- The number of copies of the tuple `r` recorded for training: pending
occurrences plus `games`-table occurrences. -/
def recordedCount (st : SPState) (r : GameRec) : Nat :=
  st.pending.count r + st.db.games.count r

/-! ## Aggregate-consistency definitions (claim C4) -/

/-- Sum of the `augmented_positions` column over the rows of a
`self_play_metadata` list with generation `g`. -/
def metaAugL (l : List MetaRow) (g : Nat) : Nat :=
  ((l.filter (fun r => r.gen == g)).map MetaRow.augmented_positions).sum

/-- The `augmented_positions` aggregate stored for gen `g` (0 if no row). -/
def metaAug (db : SelfPlayDB) (g : Nat) : Nat := metaAugL db.self_play_metadata g

/-- Sum of the `augmented_positions` (rows) column over the `games` table
rows with gen `g`. -/
def gamesAug (db : SelfPlayDB) (g : Nat) : Nat :=
  ((db.games.filter (fun r => r.gen == g)).map GameRec.rows).sum

/-- Number of `self_play_metadata` rows with gen `g`. -/
def countGenL (l : List MetaRow) (g : Nat) : Nat :=
  (l.filter (fun r => r.gen == g)).length

/-- The `gen` column of `self_play_metadata` is a primary key: no two rows
share a gen. -/
def MetaUnique (db : SelfPlayDB) : Prop :=
  (db.self_play_metadata.map MetaRow.gen).Nodup

/-- One committed write transaction against the self-play database: either a
flush of pending games (`_flush_pending_games` with its arguments) or a
metrics insert (`_insert_metrics`). -/
inductive DBOp where
  | flushOp (pending : List GameRec) (connGen : Option Nat) (runtime : Nat)
  | metricsOp (clientId gen timestamp : Nat) (m : Metrics)

/-- Apply one database operation. -/
def applyOp (db : SelfPlayDB) : DBOp → SelfPlayDB
  | DBOp.flushOp pending connGen runtime => (flush_pending_games pending connGen runtime db).1
  | DBOp.metricsOp clientId g timestamp m => insert_metrics db clientId g timestamp m

/-- Apply a sequence of committed transactions to the database. -/
def applyOps (ops : List DBOp) (db : SelfPlayDB) : SelfPlayDB :=
  ops.foldl applyOp db

/-! ## Database connection manager (database_connection_manager.py) -/

/-- Modelled from the spec: `util.sqlite3_util.ConnectionPool` is not part of
the sources; per the spec it keeps one open connection per thread identity,
and `close_connections(thread_id)` closes the connection(s) belonging to that
thread.  A pool is modelled by the list of thread ids holding an open
connection. -/
structure ConnectionPool where
  openConns : List Nat
deriving DecidableEq, Repr

/-- `ConnectionPool.close_connections(thread_id)`. -/
def close_connections (pool : ConnectionPool) (threadId : Nat) : ConnectionPool :=
  ⟨pool.openConns.filter (fun t => t ≠ threadId)⟩

/-- `DatabaseConnectionManager`: the four connection pools built in
`__init__` (clients, self-play, training, ratings). -/
structure DatabaseConnectionManager where
  clients_db_conn_pool : ConnectionPool
  self_play_db_conn_pool : ConnectionPool
  training_db_conn_pool : ConnectionPool
  ratings_db_conn_pool : ConnectionPool
deriving DecidableEq, Repr

/-- Names for the four pools, so that `_pools` can be modelled as the list it
returns and `close_db_conns` as a fold over that list. -/
inductive PoolId where
  | clients
  | selfPlay
  | training
  | ratings
deriving DecidableEq, Repr

def getPool (m : DatabaseConnectionManager) : PoolId → ConnectionPool
  | PoolId.clients => m.clients_db_conn_pool
  | PoolId.selfPlay => m.self_play_db_conn_pool
  | PoolId.training => m.training_db_conn_pool
  | PoolId.ratings => m.ratings_db_conn_pool

def setPool (m : DatabaseConnectionManager) : PoolId → ConnectionPool → DatabaseConnectionManager
  | PoolId.clients, p => { m with clients_db_conn_pool := p }
  | PoolId.selfPlay, p => { m with self_play_db_conn_pool := p }
  | PoolId.training, p => { m with training_db_conn_pool := p }
  | PoolId.ratings, p => { m with ratings_db_conn_pool := p }

/-- `DatabaseConnectionManager._pools`: returns only the clients, self-play
and training pools (the ratings pool is absent from the list). -/
def pools : List PoolId := [PoolId.clients, PoolId.selfPlay, PoolId.training]

/-- `DatabaseConnectionManager.close_db_conns(thread_id)`:
`for pool in self._pools(): pool.close_connections(thread_id)`. -/
def close_db_conns (m : DatabaseConnectionManager) (threadId : Nat) :
    DatabaseConnectionManager :=
  pools.foldl (fun acc pid => setPool acc pid (close_connections (getPool acc pid) threadId)) m

/-! ## Client connection manager (client_connection_manager.py) -/

/-- A row of the `clients` table:
`clients(id, ip_address, port, role, start_timestamp, cuda_device)`. -/
structure ClientRow where
  id : Nat
  ip_address : String
  port : Nat
  role : String
  start_timestamp : Nat
  cuda_device : String
deriving DecidableEq, Repr

/-- An active client connection as book-kept in
`ClientConnectionManager._connections` (the fields `_add_connection` reads).
The GPU id is the pair `(ip_address, cuda_device)`. -/
structure Conn where
  client_id : Nat
  client_role : String
  gpu_ip : String
  gpu_device : String
deriving DecidableEq, Repr

/-- `conn.client_gpu_id`. -/
def Conn.client_gpu_id (c : Conn) : String × String := (c.gpu_ip, c.gpu_device)

/-- An incoming handshake message together with the accepted socket's remote
address. -/
structure Handshake where
  ip_address : String
  port : Nat
  role : String
  start_timestamp : Nat
  cuda_device : String
  manager_id : Option Nat
deriving DecidableEq, Repr

/-- The `ClientConnectionManager` state touched by `_add_connection`: the
connections list, `_manager_id_to_worker_id_map`, and the clients database. -/
structure CCMState where
  connections : List Conn
  managerMap : List (Nat × Nat)
  clients : List ClientRow
deriving DecidableEq, Repr

/-- The outcome of `_add_connection`: a registered connection, a
handshake-ack carrying a rejection (followed by `return None`), or an
`assert` failure (reused client id with no matching `clients` row). -/
inductive AddResult where
  | added (c : Conn)
  | rejected (reason : String)
  | assertFailed
deriving DecidableEq, Repr

/-- `self._manager_id_to_worker_id_map.get(manager_id, None)` (with
`manager_id` possibly `None`, which is never a key). -/
def lookupManagerId (m : List (Nat × Nat)) (k : Option Nat) : Option Nat :=
  match k with
  | none => none
  | some mid =>
    match m.find? (fun p => p.1 == mid) with
    | some p => some p.2
    | none => none

/-- `self._manager_id_to_worker_id_map[manager_id] = client_id`. -/
def mapSet (m : List (Nat × Nat)) (k v : Nat) : List (Nat × Nat) :=
  match m with
  | [] => [(k, v)]
  | p :: rest => if p.1 = k then (k, v) :: rest else p :: mapSet rest k v

/-- `ClientConnectionManager._add_connection`, from the handshake receipt
onwards.  In order: reject on a role/gpu clash with an existing connection;
reject on illegal reuse of a client id; for a fresh client insert a `clients`
row (the sqlite `lastrowid` is modelled as one past the current row count) and
record the manager id; for a reused client id look the row up (assert it
exists) and reject if `(ip_address, role, cuda_device)` changed; finally
register the connection. -/
def add_connection (st : CCMState) (h : Handshake) : AddResult × CCMState :=
  let gpu_id := (h.ip_address, h.cuda_device)
  if st.connections.any (fun c => c.client_gpu_id == gpu_id && c.client_role == h.role) then
    (AddResult.rejected "connection of same role/cuda-device from same ip already exists", st)
  else
    -- In the source the reuse check `client_id in [c.client_id for c in conns]`
    -- precedes the `client_id is None` branch; when `client_id` is `None` that
    -- check is vacuously false, so it is equivalent to check reuse inside the
    -- `some` branch only.
    match lookupManagerId st.managerMap h.manager_id with
    | none =>
      let newId := st.clients.length + 1
      let row : ClientRow :=
        ⟨newId, h.ip_address, h.port, h.role, h.start_timestamp, h.cuda_device⟩
      let managerMap' := match h.manager_id with
        | some mid => mapSet st.managerMap mid newId
        | none => st.managerMap
      let conn : Conn := ⟨newId, h.role, h.ip_address, h.cuda_device⟩
      (AddResult.added conn,
        ⟨st.connections ++ [conn], managerMap', st.clients ++ [row]⟩)
    | some cid =>
      if st.connections.any (fun c => c.client_id == cid) then
        (AddResult.rejected "illegal reuse of client-id", st)
      else
        match st.clients.find? (fun r => r.id == cid) with
        | none => (AddResult.assertFailed, st)
        | some row =>
          if (row.ip_address, row.role, row.cuda_device)
              = (h.ip_address, h.role, h.cuda_device) then
            let conn : Conn := ⟨cid, h.role, h.ip_address, h.cuda_device⟩
            (AddResult.added conn,
              ⟨st.connections ++ [conn], st.managerMap, st.clients⟩)
          else
            (AddResult.rejected "worker attributes changed since last connection", st)

/-- The C5 invariant: no two active connections share `(role, gpu_id)`. -/
def RolesGpusDistinct (conns : List Conn) : Prop :=
  conns.Pairwise (fun a b => ¬(a.client_role = b.client_role
    ∧ a.client_gpu_id = b.client_gpu_id))

/-! ## GPU contention manager (gpu_contention_manager.py) -/

/-- Modelled from the spec: the `GpuContentionTable` class lives in
`gpu_contention_table.py`, which is not part of the sources.  Per spec §4.3 a
table, keyed by `(host, device)`, carries per-domain `active` flags, a
ratings-priority flag toggled by `prioritize_ratings()` /
`deprioritize_ratings()` and read by `ratings_prioritized()`, and priority
queries; the result of `has_highest_priority(TRAINING)` is carried here as the
field `training_highest`. -/
structure GpuContentionTable where
  ip_address : String
  device : String
  active_training : Bool
  active_self_play : Bool
  active_ratings : Bool
  ratings_prioritized : Bool
  training_highest : Bool
deriving DecidableEq, Repr

/-- `table.deprioritize_ratings()`. -/
def deprioritizeRatings (t : GpuContentionTable) : GpuContentionTable :=
  { t with ratings_prioritized := false }

/-- `table.prioritize_ratings()`. -/
def prioritizeRatings (t : GpuContentionTable) : GpuContentionTable :=
  { t with ratings_prioritized := true }

/-- Object identity of a table within the manager's dict-of-dicts: its
`(ip_address, device)` key. -/
def sameTable (a b : GpuContentionTable) : Bool :=
  a.ip_address == b.ip_address && a.device == b.device

/-- The sort key of `set_ratings_priority`:
`(table.active(Domain.TRAINING), table.active(Domain.SELF_PLAY))`. -/
def ratingsSortKey (t : GpuContentionTable) : Bool × Bool :=
  (t.active_training, t.active_self_play)

/-- Python tuple `<` on pairs of booleans (False < True), lexicographic. -/
def boolPairLt (a b : Bool × Bool) : Bool :=
  (!a.1 && b.1) || (a.1 == b.1 && (!a.2 && b.2))

/-- The first element of the list with minimal `ratingsSortKey`; equals
`sorted(ratings_tables, key=...)[0]` because Python's sort is stable. -/
def firstMinBy : List GpuContentionTable → Option GpuContentionTable
  | [] => none
  | t :: rest =>
    match firstMinBy rest with
    | none => some t
    | some u => if boolPairLt (ratingsSortKey u) (ratingsSortKey t) then some u else some t

/-- Number of tables with `ratings_prioritized` set. -/
def elevatedCount (tables : List GpuContentionTable) : Nat :=
  (tables.filter (fun t => t.ratings_prioritized)).length

/-- `GpuContentionManager.set_ratings_priority(elevate)` over the flattened
list of tables (the per-host dict-of-dicts in insertion order).  Returns
`none` when the `assert len(currently_elevated) <= 1` fails.  Mutation of a
table object is modelled as a map over the list keyed by `sameTable`. -/
def set_ratings_priority (tables : List GpuContentionTable) (elevate : Bool) :
    Option (List GpuContentionTable) :=
  let ratings_tables := tables.filter (fun t => t.active_ratings)
  if ratings_tables = [] then some tables
  else
    let currently_elevated := ratings_tables.filter (fun t => t.ratings_prioritized)
    if 2 ≤ currently_elevated.length then none
    else if !elevate then
      some (tables.map (fun t =>
        if t.active_ratings && t.ratings_prioritized then deprioritizeRatings t else t))
    else if currently_elevated.length = 1 then some tables
    else
      match firstMinBy ratings_tables with
      | none => some tables
      | some chosen =>
        some (tables.map (fun t => if sameTable t chosen then prioritizeRatings t else t))

/-- `GpuContentionManager.get_gpu_lock_table_for_training`: `subtable` is the
per-host dict `self._table[ip_address]` as a list in insertion order, and
`(defaultIp, defaultDevice)` is `self._controller.default_training_gpu_id`.
Returns `none` on a `KeyError` (default device missing from the subtable) or
when the `assert other_table.has_highest_priority(TRAINING)` fails. -/
def get_gpu_lock_table_for_training (subtable : List GpuContentionTable)
    (defaultIp defaultDevice : String) : Option GpuContentionTable :=
  match subtable.find? (fun t => t.device == defaultDevice) with
  | none => none
  | some table =>
    if table.training_highest then some table
    else
      match subtable.find?
          (fun t => !(t.ip_address == defaultIp && t.device == defaultDevice)) with
      | some other => if other.training_highest then some other else none
      | none => some table

/-! ## AlphaZeroManager: directory listings and latest generation (manager.py)

Directories are modelled by their listing (the list of entry names that
`os.listdir` returns).  `natsorted` is modelled by its documented behaviour:
sort by the key that splits a name into runs of digits (compared numerically)
and runs of non-digits (compared lexicographically by code point); Python's
sort is stable, so it is an insertion sort. -/

/-- Python `int` over a digit string (most significant digit first). -/
def digitsVal (cs : List Char) : Nat :=
  cs.foldl (fun a c => a * 10 + (c.toNat - 48)) 0

/-- The decimal digit characters. -/
def digitChar (d : Nat) : Char :=
  if d = 0 then '0' else if d = 1 then '1' else if d = 2 then '2' else if d = 3 then '3'
  else if d = 4 then '4' else if d = 5 then '5' else if d = 6 then '6' else if d = 7 then '7'
  else if d = 8 then '8' else '9'

/-- Python `str` of a non-negative integer (the `{gen}` in `f'gen-{gen}.ptj'`). -/
def natDigits (n : Nat) : List Char :=
  if h : n < 10 then [digitChar n]
  else natDigits (n / 10) ++ [digitChar (n % 10)]
decreasing_by
  exact Nat.div_lt_self (by omega) (by omega)

/-- One token of the natural-sort key: a run of digits or a run of
non-digits. -/
inductive NToken where
  | num (cs : List Char)
  | str (cs : List Char)
deriving DecidableEq, Repr

/-- Prepend one character to a token list, merging it with a leading run of
the same kind. -/
def consChar (c : Char) : List NToken → List NToken
  | [] => if c.isDigit then [NToken.num [c]] else [NToken.str [c]]
  | NToken.num ds :: rest =>
    if c.isDigit then NToken.num (c :: ds) :: rest
    else NToken.str [c] :: NToken.num ds :: rest
  | NToken.str s :: rest =>
    if c.isDigit then NToken.num [c] :: NToken.str s :: rest
    else NToken.str (c :: s) :: rest

/-- The natural-sort key of a character list. -/
def tokChars : List Char → List NToken
  | [] => []
  | c :: cs => consChar c (tokChars cs)

/-- Code-point comparison of two characters. -/
def charCmp (c d : Char) : Ordering := compare c.toNat d.toNat

/-- Lexicographic code-point comparison of two strings. -/
def strCmp : List Char → List Char → Ordering
  | [], [] => Ordering.eq
  | [], _ :: _ => Ordering.lt
  | _ :: _, [] => Ordering.gt
  | a :: as, b :: bs =>
    match charCmp a b with
    | Ordering.eq => strCmp as bs
    | o => o

/-- Comparison of two key tokens: digit runs numerically, others by code
point; a digit run sorts before a non-digit run. -/
def tokCmp : NToken → NToken → Ordering
  | NToken.num a, NToken.num b => compare (digitsVal a) (digitsVal b)
  | NToken.num _, NToken.str _ => Ordering.lt
  | NToken.str _, NToken.num _ => Ordering.gt
  | NToken.str a, NToken.str b => strCmp a b

/-- Lexicographic comparison of two natural-sort keys. -/
def keyCmp : List NToken → List NToken → Ordering
  | [], [] => Ordering.eq
  | [], _ :: _ => Ordering.lt
  | _ :: _, [] => Ordering.gt
  | t :: ts, u :: us =>
    match tokCmp t u with
    | Ordering.eq => keyCmp ts us
    | o => o

/-- The total preorder `natsorted` sorts by. -/
def natsortLEb (a b : String) : Bool :=
  match keyCmp (tokChars a.data) (tokChars b.data) with
  | Ordering.gt => false
  | _ => true

/-- Stable insertion into a natsort-sorted list. -/
def orderedInsertStr (a : String) : List String → List String
  | [] => [a]
  | b :: l => if natsortLEb a b then a :: b :: l else b :: orderedInsertStr a l

/-- `natsorted(names)`: stable sort by the natural-sort key. -/
def natsorted (l : List String) : List String := l.foldr orderedInsertStr []

/-- `f.startswith('.')`. -/
def isHiddenFile (f : String) : Bool :=
  match f.data with
  | '.' :: _ => true
  | _ => false

/-- `AlphaZeroManager.get_ordered_subpaths(path)`: natsorted listing with
hidden entries removed. -/
def get_ordered_subpaths (dirListing : List String) : List String :=
  (natsorted dirListing).filter (fun f => !(isHiddenFile f))

/-- Python `s.split(sep)` for a one-character separator. -/
def splitOnChar (sep : Char) : List Char → List (List Char)
  | [] => [[]]
  | c :: cs =>
    let r := splitOnChar sep cs
    if c = sep then [] :: r
    else
      match r with
      | [] => [[c]]
      | g :: gs => (c :: g) :: gs

/-- Python `int(s)`, restricted to unsigned decimal literals: `none` models
the `ValueError` on anything else. -/
def pyInt (cs : List Char) : Option Nat :=
  if cs = [] then none
  else if cs.all Char.isDigit then some (digitsVal cs) else none

/-- The scan in `PathInfo.__init__`:
`for t, token in enumerate(tokens): if token == 'gen': generation = int(tokens[t+1])`.
`none` models an `IndexError` (a trailing `gen`) or a `ValueError` in
`int`. -/
def scanGenTokens : List (List Char) → Int → Option Int
  | [], acc => some acc
  | t :: rest, acc =>
    if t = ['g', 'e', 'n'] then
      match rest with
      | [] => none
      | s :: _ =>
        match pyInt s with
        | none => none
        | some n => scanGenTokens rest (Int.ofNat n)
    else scanGenTokens rest acc

/-- `PathInfo(path).generation`: take the basename, strip the extension at
the first dot, split on `-` and scan for `gen`; the field is initialised
to -1. -/
def pathInfoGen (path : String) : Option Int :=
  let payload := (splitOnChar '.' ((splitOnChar '/' path.data).getLastD [])).headD []
  scanGenTokens (splitOnChar '-' payload) (-1)

/-- `AlphaZeroManager.get_latest_info(path)`: the last ordered subpath. -/
def get_latest_info (dirListing : List String) : Option String :=
  (get_ordered_subpaths dirListing).getLast?

/-- `AlphaZeroManager.get_latest_model_generation`: 0 if the directory is
empty, else the generation parsed from the last subpath (`none` models an
exception in `PathInfo`). -/
def get_latest_model_generation (modelsDir : List String) : Option Int :=
  match get_latest_info modelsDir with
  | none => some 0
  | some name => pathInfoGen name

/-- `AlphaZeroManager.get_latest_player_generation`, same computation over
`players/`. -/
def get_latest_player_generation (playersDir : List String) : Option Int :=
  match get_latest_info playersDir with
  | none => some 0
  | some name => pathInfoGen name

/-- `AlphaZeroManager.get_latest_generation`: the source returns
`min(get_latest_model_generation(), get_latest_player_generation())`. -/
def get_latest_generation (modelsDir playersDir : List String) : Option Int :=
  match get_latest_model_generation modelsDir, get_latest_player_generation playersDir with
  | some a, some b => some (min a b)
  | _, _ => none

/-- The latest-generation lookup as the specification words it: the *max* of
the latest committed model generation and the latest player-file generation.
Stated only to be compared against `get_latest_generation`. -/
def get_latest_generation_spec (modelsDir playersDir : List String) : Option Int :=
  match get_latest_model_generation modelsDir, get_latest_player_generation playersDir with
  | some a, some b => some (max a b)
  | _, _ => none

/-- `AlphaZeroManager.get_model_filename`: `f'gen-{gen}.ptj'` (basename). -/
def get_model_filename (g : Nat) : String := "gen-" ++ ⟨natDigits g⟩ ++ ".ptj"

/-- The player file `f'gen-{gen}.txt'` (basename). -/
def get_player_filename (g : Nat) : String := "gen-" ++ ⟨natDigits g⟩ ++ ".txt"

/-- The maximum of a list of gens (0 when empty). -/
def maxOf (l : List Nat) : Nat := l.foldr max 0

/-- Soundness of `notifyAfterCommitAux`: a passing trace has a `commit` in
front of every `notifyTraining`. -/
theorem notifyAfterCommitAux_sound :
    ∀ (l1 : List Event) (seen : Bool) (n : Nat) (l2 : List Event),
      notifyAfterCommitAux seen (l1 ++ Event.notifyTraining n :: l2) = true →
      seen = true ∨ Event.commit ∈ l1 := by
  intro l1
  induction l1 with
  | nil =>
    intro seen n l2 h
    simp only [List.nil_append, notifyAfterCommitAux, Bool.and_eq_true] at h
    exact Or.inl h.1
  | cons e l1' ih =>
    intro seen n l2 h
    cases e <;>
      simp only [List.cons_append, notifyAfterCommitAux, Bool.and_eq_true] at h
    case commit => exact Or.inr (List.mem_cons_self _ _)
    case notifyTraining m =>
      exact (ih seen n l2 h.2).imp id (List.mem_cons_of_mem _)
    all_goals exact (ih seen n l2 h).imp id (List.mem_cons_of_mem _)

/-! ## Basic lemmas about the self-play embedding -/

theorem budgetGet_budgetSet (b : List (Nat × Nat)) (g v : Nat) :
    budgetGet (budgetSet b g v) g = v := by
  induction b with
  | nil => simp [budgetSet, budgetGet, List.find?]
  | cons p rest ih =>
    by_cases h : p.1 = g
    · simp [budgetSet, budgetGet, h, List.find?]
    · simp only [budgetSet, if_neg h]
      simpa [budgetGet, List.find?_cons, h] using ih

@[simp] theorem insertOrIgnoreMeta_games (db : SelfPlayDB) (g : Nat) :
    (insertOrIgnoreMeta db g).games = db.games := by
  unfold insertOrIgnoreMeta; split <;> rfl

@[simp] theorem updateMetaGameCounts_games (db : SelfPlayDB) (g a b c : Nat) :
    (updateMetaGameCounts db g a b c).games = db.games := rfl

@[simp] theorem flush_pending_games_helper_games (db : SelfPlayDB) (g a b c : Nat) :
    (flush_pending_games_helper db g a b c).games = db.games := by
  simp [flush_pending_games_helper]

@[simp] theorem insert_metrics_games (db : SelfPlayDB) (c g t : Nat) (m : Metrics) :
    (insert_metrics db c g t m).games = db.games := rfl

@[simp] theorem flushStep_games (p : List GameRec) (cg : Option Nat) (rt : Nat)
    (db : SelfPlayDB) (g : Nat) : (flushStep p cg rt db g).games = db.games := by
  simp [flushStep]

theorem foldl_flushStep_games (p : List GameRec) (cg : Option Nat) (rt : Nat)
    (gens : List Nat) (db : SelfPlayDB) :
    (gens.foldl (flushStep p cg rt) db).games = db.games := by
  induction gens generalizing db with
  | nil => rfl
  | cons g gens ih => simp [List.foldl_cons, ih]

theorem flush_pending_games_games (p : List GameRec) (cg : Option Nat) (rt : Nat)
    (db : SelfPlayDB) :
    (flush_pending_games p cg rt db).1.games = db.games ++ p := by
  unfold flush_pending_games
  split
  · simp [*]
  · simp [foldl_flushStep_games]

theorem flush_pending_games_total (p : List GameRec) (cg : Option Nat) (rt : Nat)
    (db : SelfPlayDB) :
    (flush_pending_games p cg rt db).2 = (p.map GameRec.rows).sum := by
  unfold flush_pending_games
  split
  · simp [*]
  · rfl

theorem handle_game_budget (maxPos : Option Nat) (clientId : Nat) (msg : GameMsg)
    (connGen : Option Nat) (rt : Nat) (st : SPState) :
    (handle_game maxPos clientId msg connGen rt st).1.budget
      = (check_row_budget maxPos st.budget msg.gen msg.rows).2 := by
  unfold handle_game
  by_cases hf : msg.flush <;> cases hc : msg.counters <;> simp [hf, hc]

theorem handle_game_files (maxPos : Option Nat) (clientId : Nat) (msg : GameMsg)
    (connGen : Option Nat) (rt : Nat) (st : SPState) :
    (handle_game maxPos clientId msg connGen rt st).1.files
      = (if (check_row_budget maxPos st.budget msg.gen msg.rows).1
          then st.files ++ [(clientId, msg.gen, msg.end_timestamp)] else st.files) := by
  unfold handle_game
  by_cases hf : msg.flush <;> cases hc : msg.counters <;> simp [hf, hc]

theorem handle_game_recordedCount (maxPos : Option Nat) (clientId : Nat) (msg : GameMsg)
    (connGen : Option Nat) (rt : Nat) (st : SPState) (r : GameRec) :
    recordedCount (handle_game maxPos clientId msg connGen rt st).1 r
      = (if (check_row_budget maxPos st.budget msg.gen msg.rows).1
          then st.pending
            ++ [(⟨clientId, msg.gen, msg.start_timestamp, msg.end_timestamp, msg.rows⟩ : GameRec)]
          else st.pending).count r + st.db.games.count r := by
  unfold handle_game recordedCount
  by_cases hf : msg.flush <;> cases hc : msg.counters <;>
    simp [hf, hc, flush_pending_games_games, List.count_append]
  all_goals omega

theorem handle_game_recvFile (maxPos : Option Nat) (clientId : Nat) (msg : GameMsg)
    (connGen : Option Nat) (rt : Nat) (st : SPState) :
    Event.recvFile (check_row_budget maxPos st.budget msg.gen msg.rows).1
      ∈ (handle_game maxPos clientId msg connGen rt st).2 := by
  simp [handle_game]

@[simp] theorem nAC_nil (seen : Bool) : notifyAfterCommitAux seen [] = true := rfl

@[simp] theorem nAC_recvFile (seen b : Bool) (rest : List Event) :
    notifyAfterCommitAux seen (Event.recvFile b :: rest) = notifyAfterCommitAux seen rest := rfl

@[simp] theorem nAC_updateMeta (seen : Bool) (g : Nat) (rest : List Event) :
    notifyAfterCommitAux seen (Event.updateMeta g :: rest) = notifyAfterCommitAux seen rest := rfl

@[simp] theorem nAC_insertGames (seen : Bool) (n : Nat) (rest : List Event) :
    notifyAfterCommitAux seen (Event.insertGames n :: rest) = notifyAfterCommitAux seen rest := rfl

@[simp] theorem nAC_insertMetricsRow (seen : Bool) (rest : List Event) :
    notifyAfterCommitAux seen (Event.insertMetricsRow :: rest)
      = notifyAfterCommitAux seen rest := rfl

@[simp] theorem nAC_sendQuit (seen : Bool) (rest : List Event) :
    notifyAfterCommitAux seen (Event.sendQuit :: rest) = notifyAfterCommitAux seen rest := rfl

@[simp] theorem nAC_commit (seen : Bool) (rest : List Event) :
    notifyAfterCommitAux seen (Event.commit :: rest) = notifyAfterCommitAux true rest := rfl

@[simp] theorem nAC_notify (seen : Bool) (n : Nat) (rest : List Event) :
    notifyAfterCommitAux seen (Event.notifyTraining n :: rest)
      = (seen && notifyAfterCommitAux seen rest) := rfl

theorem nAC_updateMeta_append (l : List Nat) (seen : Bool) (rest : List Event) :
    notifyAfterCommitAux seen (l.map Event.updateMeta ++ rest)
      = notifyAfterCommitAux seen rest := by
  induction l with
  | nil => rfl
  | cons g l ih => simp [ih]

theorem nAC_flushEvents (p : List GameRec) (seen : Bool) (rest : List Event) :
    notifyAfterCommitAux seen (flushEvents p ++ rest) = notifyAfterCommitAux seen rest := by
  unfold flushEvents
  split
  · rfl
  · simp [List.append_assoc, nAC_updateMeta_append]

theorem handle_game_nAC (maxPos : Option Nat) (clientId : Nat) (msg : GameMsg)
    (connGen : Option Nat) (rt : Nat) (st : SPState) :
    notifyAfterCommitAux false (handle_game maxPos clientId msg connGen rt st).2 = true := by
  unfold handle_game
  by_cases hf : msg.flush <;> cases hc : msg.counters <;> by_cases hd : msg.done <;>
    simp [hf, hc, hd, List.append_assoc, nAC_flushEvents]

theorem handle_metrics_nAC (clientId : Nat) (msg : MetricsMsg) (connGen : Option Nat)
    (rt : Nat) (st : SPState) :
    notifyAfterCommitAux false (handle_metrics clientId msg connGen rt st).2 = true := by
  unfold handle_metrics
  simp [nAC_flushEvents]

/-! ## Claim C1: row budget discarding -/

/-- C1 (counterexample): with `max_positions_per_generation = 500` and two
successive 300-row games for the same gen 1 > 0, the claim asserts the second
game's file is not written and its rows are not recorded.  In the code,
`_check_row_budget` compares the cumulative rows *before* the current game
(300) against the cap (500), so the second game passes the budget: its file is
written and its rows are appended to the pending list. -/
theorem C1_second_game_kept :
    let msg1 : GameMsg := ⟨1, 10, 20, 300, false, false, none⟩
    let msg2 : GameMsg := ⟨1, 10, 30, 300, false, false, none⟩
    let s1 := (handle_game (some 500) 7 msg1 none 0 initialSPState).1
    let s2 := (handle_game (some 500) 7 msg2 none 0 s1).1
    (7, 1, 30) ∈ s2.files ∧ (⟨7, 1, 10, 30, 300⟩ : GameRec) ∈ s2.pending := by
  decide

/-- C1 (amended): for a configured cap and gen > 0, a `game` message is
discarded exactly when the cumulative rows already submitted for its gen
(counting every earlier game of that gen, kept or discarded) have reached the
cap; the file is written and the rows recorded iff the prior cumulative count
is below the cap, the cumulative counter grows by `rows` either way, and the
file bytes are consumed off the socket either way.  (With a cap of 500 and
successive 300-row games, the first two games are kept and the third is the
first one discarded.) -/
theorem C1_row_budget_discard (cap clientId : Nat) (msg : GameMsg)
    (connGen : Option Nat) (rt : Nat) (st : SPState) (hgen : msg.gen ≠ 0) :
    ((handle_game (some cap) clientId msg connGen rt st).1.files
        = (if budgetGet st.budget msg.gen < cap
            then st.files ++ [(clientId, msg.gen, msg.end_timestamp)] else st.files))
    ∧ recordedCount (handle_game (some cap) clientId msg connGen rt st).1
          ⟨clientId, msg.gen, msg.start_timestamp, msg.end_timestamp, msg.rows⟩
        = recordedCount st ⟨clientId, msg.gen, msg.start_timestamp, msg.end_timestamp, msg.rows⟩
          + (if budgetGet st.budget msg.gen < cap then 1 else 0)
    ∧ budgetGet (handle_game (some cap) clientId msg connGen rt st).1.budget msg.gen
        = budgetGet st.budget msg.gen + msg.rows
    ∧ Event.recvFile (decide (budgetGet st.budget msg.gen < cap))
        ∈ (handle_game (some cap) clientId msg connGen rt st).2 := by
  have hB : check_row_budget (some cap) st.budget msg.gen msg.rows
      = (decide (budgetGet st.budget msg.gen < cap),
         budgetSet st.budget msg.gen (budgetGet st.budget msg.gen + msg.rows)) := by
    simp [check_row_budget, hgen]
  refine ⟨?_, ?_, ?_, ?_⟩
  · rw [handle_game_files, hB]
    by_cases h : budgetGet st.budget msg.gen < cap <;> simp [h]
  · rw [handle_game_recordedCount, hB]
    unfold recordedCount
    by_cases h : budgetGet st.budget msg.gen < cap <;> simp [h, List.count_append] <;> omega
  · rw [handle_game_budget, hB, budgetGet_budgetSet]
  · have h := handle_game_recvFile (some cap) clientId msg connGen rt st
    rw [hB] at h
    exact h

/-- Witness for `C1_row_budget_discard` at a concrete input. -/
theorem C1_row_budget_discard_witness :
    (handle_game (some 500) 7 ⟨1, 10, 20, 300, false, false, none⟩ none 0
        initialSPState).1.files = [(7, 1, 20)]
    ∧ budgetGet (handle_game (some 500) 7 ⟨1, 10, 20, 300, false, false, none⟩ none 0
        initialSPState).1.budget 1 = 300 := by
  have h := C1_row_budget_discard 500 7 ⟨1, 10, 20, 300, false, false, none⟩ none 0
    initialSPState (by decide)
  refine ⟨?_, ?_⟩
  · have h1 := h.1
    simpa [initialSPState, budgetGet] using h1
  · have h3 := h.2.2.1
    simpa [initialSPState, budgetGet] using h3

/-! ## Claim C9: gen-0 games are never discarded by the budget -/

/-- C9: for every configured `max_positions_per_generation` and every state of
the budget counters, a `game` message with gen 0 passes the row budget: its
file is written, its rows are recorded (appended to pending, hence counted),
and the budget dict is untouched. -/
theorem C9_gen0_never_discarded (maxPos : Option Nat) (clientId : Nat) (msg : GameMsg)
    (connGen : Option Nat) (rt : Nat) (st : SPState) (hgen : msg.gen = 0) :
    ((handle_game maxPos clientId msg connGen rt st).1.files
        = st.files ++ [(clientId, msg.gen, msg.end_timestamp)])
    ∧ recordedCount (handle_game maxPos clientId msg connGen rt st).1
          ⟨clientId, msg.gen, msg.start_timestamp, msg.end_timestamp, msg.rows⟩
        = recordedCount st ⟨clientId, msg.gen, msg.start_timestamp, msg.end_timestamp, msg.rows⟩
          + 1
    ∧ (handle_game maxPos clientId msg connGen rt st).1.budget = st.budget
    ∧ Event.recvFile true ∈ (handle_game maxPos clientId msg connGen rt st).2 := by
  have hB : check_row_budget maxPos st.budget msg.gen msg.rows = (true, st.budget) := by
    simp [check_row_budget, hgen]
  refine ⟨?_, ?_, ?_, ?_⟩
  · rw [handle_game_files, hB]
    simp
  · rw [handle_game_recordedCount, hB]
    unfold recordedCount
    simp [List.count_append]
    omega
  · rw [handle_game_budget, hB]
  · have h := handle_game_recvFile maxPos clientId msg connGen rt st
    rw [hB] at h
    exact h

/-- Witness for `C9_gen0_never_discarded` at a concrete input: cap 5 already
exhausted by 100 cumulative rows for gen 0 in the budget dict, yet the gen-0
game is still kept. -/
theorem C9_gen0_never_discarded_witness :
    (handle_game (some 5) 3 ⟨0, 1, 2, 100, false, false, none⟩ none 0
        ⟨[(0, 100)], [], [], emptySelfPlayDB⟩).1.files = [(3, 0, 2)] := by
  have h := C9_gen0_never_discarded (some 5) 3 ⟨0, 1, 2, 100, false, false, none⟩ none 0
    ⟨[(0, 100)], [], [], emptySelfPlayDB⟩ rfl
  simpa using h.1

/-! ## Claim C8: training notification only after commit -/

/-- C8: in the event trace of `_handle_game` and of `_handle_metrics`, every
`handle_new_self_play_positions` notification is preceded by the database
commit of the transaction that inserted the corresponding games and updated
the aggregates: whenever the trace splits as `l1 ++ notifyTraining n :: l2`,
a `commit` occurs in `l1`. -/
theorem C8_notify_after_commit (maxPos : Option Nat) (clientId : Nat) (msg : GameMsg)
    (connGen : Option Nat) (rt : Nat) (st : SPState)
    (clientId2 : Nat) (mmsg : MetricsMsg) (connGen2 : Option Nat) (rt2 : Nat) (st2 : SPState) :
    (∀ l1 n l2, (handle_game maxPos clientId msg connGen rt st).2
        = l1 ++ Event.notifyTraining n :: l2 → Event.commit ∈ l1)
    ∧ (∀ l1 n l2, (handle_metrics clientId2 mmsg connGen2 rt2 st2).2
        = l1 ++ Event.notifyTraining n :: l2 → Event.commit ∈ l1) := by
  constructor
  · intro l1 n l2 heq
    have h := handle_game_nAC maxPos clientId msg connGen rt st
    rw [heq] at h
    rcases notifyAfterCommitAux_sound l1 false n l2 h with h' | h'
    · exact absurd h' (by simp)
    · exact h'
  · intro l1 n l2 heq
    have h := handle_metrics_nAC clientId2 mmsg connGen2 rt2 st2
    rw [heq] at h
    rcases notifyAfterCommitAux_sound l1 false n l2 h with h' | h'
    · exact absurd h' (by simp)
    · exact h'

/-- Witness for `C8_notify_after_commit` at a concrete flushing game
message. -/
theorem C8_notify_after_commit_witness :
    Event.commit
      ∈ [Event.recvFile true, Event.updateMeta 1, Event.insertGames 1, Event.commit] :=
  (C8_notify_after_commit none 1 ⟨1, 10, 20, 300, true, false, none⟩ none 0 initialSPState
      1 ⟨1, 0, ⟨0, 0, 0, 0, 0⟩⟩ none 0 initialSPState).1
    [Event.recvFile true, Event.updateMeta 1, Event.insertGames 1, Event.commit] 300 []
    (by decide)

/-! ## Lemmas towards C4: the augmented-position aggregate -/

@[simp] theorem bumpGameCounts_gen (g ng na rt : Nat) (r : MetaRow) :
    (bumpGameCounts g ng na rt r).gen = r.gen := by
  unfold bumpGameCounts; split <;> rfl

@[simp] theorem bumpEvalCounts_gen (g : Nat) (m : Metrics) (r : MetaRow) :
    (bumpEvalCounts g m r).gen = r.gen := by
  unfold bumpEvalCounts; split <;> rfl

@[simp] theorem bumpEvalCounts_aug (g : Nat) (m : Metrics) (r : MetaRow) :
    (bumpEvalCounts g m r).augmented_positions = r.augmented_positions := by
  unfold bumpEvalCounts; split <;> rfl

theorem metaAugL_cons (r : MetaRow) (l : List MetaRow) (g : Nat) :
    metaAugL (r :: l) g
      = (if r.gen = g then r.augmented_positions else 0) + metaAugL l g := by
  by_cases h : r.gen = g <;> simp [metaAugL, List.filter_cons, h]

theorem metaAugL_append (l1 l2 : List MetaRow) (g : Nat) :
    metaAugL (l1 ++ l2) g = metaAugL l1 g + metaAugL l2 g := by
  simp [metaAugL, List.filter_append]

theorem countGenL_cons (r : MetaRow) (l : List MetaRow) (g : Nat) :
    countGenL (r :: l) g = (if r.gen = g then 1 else 0) + countGenL l g := by
  by_cases h : r.gen = g <;> simp [countGenL, List.filter_cons, h] <;> try omega

theorem metaAug_insertOrIgnore (db : SelfPlayDB) (g h : Nat) :
    metaAug (insertOrIgnoreMeta db g) h = metaAug db h := by
  unfold insertOrIgnoreMeta metaAug
  split
  · rfl
  · by_cases hg : g = h <;>
      simp [metaAugL_append, metaAugL_cons, metaAugL, hg]

theorem metaAugL_bumpGame_ne (l : List MetaRow) (g ng na rt h : Nat) (hne : h ≠ g) :
    metaAugL (l.map (bumpGameCounts g ng na rt)) h = metaAugL l h := by
  induction l with
  | nil => rfl
  | cons r rest ih =>
    rw [List.map_cons, metaAugL_cons, metaAugL_cons, ih]
    congr 1
    simp only [bumpGameCounts_gen]
    by_cases hh : r.gen = h
    · simp [hh, bumpGameCounts, hne]
    · simp [hh]

theorem metaAugL_bumpGame_zero (l : List MetaRow) (g ng na rt : Nat)
    (hcnt : countGenL l g = 0) :
    metaAugL (l.map (bumpGameCounts g ng na rt)) g = metaAugL l g := by
  induction l with
  | nil => rfl
  | cons r rest ih =>
    rw [countGenL_cons] at hcnt
    have hg : ¬ r.gen = g := by
      intro e; rw [if_pos e] at hcnt; omega
    have hrest : countGenL rest g = 0 := by rw [if_neg hg] at hcnt; omega
    rw [List.map_cons, metaAugL_cons, metaAugL_cons, ih hrest]
    simp [bumpGameCounts, hg]

theorem metaAugL_bumpGame_one (l : List MetaRow) (g ng na rt : Nat)
    (hcnt : countGenL l g = 1) :
    metaAugL (l.map (bumpGameCounts g ng na rt)) g = metaAugL l g + na := by
  induction l with
  | nil => simp [countGenL] at hcnt
  | cons r rest ih =>
    rw [countGenL_cons] at hcnt
    rw [List.map_cons, metaAugL_cons, metaAugL_cons]
    by_cases hg : r.gen = g
    · have hrest : countGenL rest g = 0 := by rw [if_pos hg] at hcnt; omega
      rw [metaAugL_bumpGame_zero rest g ng na rt hrest]
      simp [bumpGameCounts, hg]
      omega
    · have hrest : countGenL rest g = 1 := by rw [if_neg hg] at hcnt; omega
      rw [ih hrest]
      simp only [bumpGameCounts_gen]
      rw [if_neg hg, if_neg hg]
      omega

theorem countGenL_append (l1 l2 : List MetaRow) (g : Nat) :
    countGenL (l1 ++ l2) g = countGenL l1 g + countGenL l2 g := by
  simp [countGenL, List.filter_append]

theorem countGenL_eq_zero (l : List MetaRow) (g : Nat) (h : g ∉ l.map MetaRow.gen) :
    countGenL l g = 0 := by
  simp only [countGenL, List.length_eq_zero, List.filter_eq_nil_iff]
  intro x hx
  simp only [beq_iff_eq]
  exact fun e => h (List.mem_map.mpr ⟨x, hx, e⟩)

theorem countGenL_one_of_any (l : List MetaRow) (g : Nat)
    (hU : (l.map MetaRow.gen).Nodup) (hany : l.any (fun r => r.gen == g)) :
    countGenL l g = 1 := by
  induction l with
  | nil => simp at hany
  | cons r rest ih =>
    rw [countGenL_cons]
    rw [List.map_cons, List.nodup_cons] at hU
    by_cases h : r.gen = g
    · rw [if_pos h]
      have h0 : countGenL rest g = 0 := countGenL_eq_zero rest g (h ▸ hU.1)
      omega
    · rw [if_neg h]
      have hany' : rest.any (fun r => r.gen == g) := by
        simp only [List.any_cons, Bool.or_eq_true, beq_iff_eq] at hany
        rcases hany with h1 | h2
        · exact absurd h1 h
        · exact h2
      rw [ih hU.2 hany']

theorem countGenL_insertOrIgnore (db : SelfPlayDB) (g : Nat) (hU : MetaUnique db) :
    countGenL (insertOrIgnoreMeta db g).self_play_metadata g = 1 := by
  unfold insertOrIgnoreMeta
  split
  · next hany => exact countGenL_one_of_any _ g hU hany
  · next hany =>
    have h0 : countGenL db.self_play_metadata g = 0 := by
      apply countGenL_eq_zero
      intro hmem
      rcases List.mem_map.mp hmem with ⟨r, hr, he⟩
      simp only [List.any_eq_true, beq_iff_eq] at hany
      exact hany ⟨r, hr, he⟩
    simp only
    rw [countGenL_append, h0]
    simp [countGenL]

theorem metaUnique_insertOrIgnore (db : SelfPlayDB) (g : Nat) (hU : MetaUnique db) :
    MetaUnique (insertOrIgnoreMeta db g) := by
  unfold insertOrIgnoreMeta
  split
  · exact hU
  · next hany =>
    unfold MetaUnique at *
    simp only [List.map_append, List.map_cons, List.map_nil]
    rw [List.nodup_append]
    refine ⟨hU, List.nodup_singleton _, ?_⟩
    intro a ha hb
    simp only [List.mem_singleton] at hb
    subst hb
    simp only [List.any_eq_true, beq_iff_eq] at hany
    rcases List.mem_map.mp ha with ⟨r, hr, he⟩
    exact hany ⟨r, hr, he⟩

theorem metaUnique_updateMetaGameCounts (db : SelfPlayDB) (g ng na rt : Nat)
    (hU : MetaUnique db) : MetaUnique (updateMetaGameCounts db g ng na rt) := by
  unfold MetaUnique updateMetaGameCounts at *
  simpa [List.map_map, Function.comp_def] using hU

theorem metaUnique_flushHelper (db : SelfPlayDB) (g ng na rt : Nat) (hU : MetaUnique db) :
    MetaUnique (flush_pending_games_helper db g ng na rt) :=
  metaUnique_updateMetaGameCounts _ _ _ _ _ (metaUnique_insertOrIgnore db g hU)

theorem metaAug_flushHelper (db : SelfPlayDB) (g ng na rt h : Nat) (hU : MetaUnique db) :
    metaAug (flush_pending_games_helper db g ng na rt) h
      = metaAug db h + (if h = g then na else 0) := by
  have hrw : metaAug (flush_pending_games_helper db g ng na rt) h
      = metaAugL ((insertOrIgnoreMeta db g).self_play_metadata.map (bumpGameCounts g ng na rt))
          h := rfl
  rw [hrw]
  by_cases hh : h = g
  · subst hh
    rw [metaAugL_bumpGame_one _ _ _ _ _ (countGenL_insertOrIgnore db h hU)]
    have : metaAugL (insertOrIgnoreMeta db h).self_play_metadata h = metaAug db h :=
      metaAug_insertOrIgnore db h h
    rw [this]
    simp
  · rw [metaAugL_bumpGame_ne _ _ _ _ _ _ hh]
    have : metaAugL (insertOrIgnoreMeta db g).self_play_metadata h = metaAug db h :=
      metaAug_insertOrIgnore db g h
    rw [this]
    simp [hh]

theorem metaAug_flushStep (p : List GameRec) (cg : Option Nat) (rt : Nat)
    (db : SelfPlayDB) (g h : Nat) (hU : MetaUnique db) :
    metaAug (flushStep p cg rt db g) h
      = metaAug db h + (if h = g then nAugPerGen p g else 0) :=
  metaAug_flushHelper db g _ _ _ h hU

theorem metaUnique_flushStep (p : List GameRec) (cg : Option Nat) (rt : Nat)
    (db : SelfPlayDB) (g : Nat) (hU : MetaUnique db) :
    MetaUnique (flushStep p cg rt db g) :=
  metaUnique_flushHelper db g _ _ _ hU

theorem metaUnique_foldl_flushStep (p : List GameRec) (cg : Option Nat) (rt : Nat)
    (gens : List Nat) (db : SelfPlayDB) (hU : MetaUnique db) :
    MetaUnique (gens.foldl (flushStep p cg rt) db) := by
  induction gens generalizing db with
  | nil => exact hU
  | cons g rest ih => exact ih _ (metaUnique_flushStep p cg rt db g hU)

theorem metaAug_foldl_flushStep (p : List GameRec) (cg : Option Nat) (rt : Nat)
    (gens : List Nat) (db : SelfPlayDB) (hU : MetaUnique db) (hN : gens.Nodup) (h : Nat) :
    metaAug (gens.foldl (flushStep p cg rt) db) h
      = metaAug db h + (if h ∈ gens then nAugPerGen p h else 0) := by
  induction gens generalizing db with
  | nil => simp
  | cons g rest ih =>
    rw [List.foldl_cons, ih _ (metaUnique_flushStep p cg rt db g hU)
          (List.nodup_cons.mp hN).2,
        metaAug_flushStep p cg rt db g h hU]
    by_cases hg : h = g
    · subst hg
      have hnr : h ∉ rest := (List.nodup_cons.mp hN).1
      simp [hnr]
    · simp [hg, List.mem_cons]

theorem metaAugL_bumpEval (l : List MetaRow) (g : Nat) (m : Metrics) (h : Nat) :
    metaAugL (l.map (bumpEvalCounts g m)) h = metaAugL l h := by
  induction l with
  | nil => rfl
  | cons r rest ih =>
    rw [List.map_cons, metaAugL_cons, metaAugL_cons, ih]
    simp

theorem metaAug_insert_metrics (db : SelfPlayDB) (c g t : Nat) (m : Metrics) (h : Nat) :
    metaAug (insert_metrics db c g t m) h = metaAug db h :=
  metaAugL_bumpEval db.self_play_metadata g m h

theorem metaUnique_insert_metrics (db : SelfPlayDB) (c g t : Nat) (m : Metrics)
    (hU : MetaUnique db) : MetaUnique (insert_metrics db c g t m) := by
  unfold MetaUnique insert_metrics at *
  simpa [List.map_map, Function.comp_def] using hU

@[simp] theorem insert_metrics_games' (db : SelfPlayDB) (c g t : Nat) (m : Metrics) :
    gamesAug (insert_metrics db c g t m) h = gamesAug db h := rfl

theorem mem_firstOccs (l : List Nat) (a : Nat) : a ∈ firstOccs l ↔ a ∈ l := by
  induction l with
  | nil => simp [firstOccs]
  | cons g rest ih =>
    simp only [firstOccs, List.mem_cons, List.mem_filter, decide_eq_true_eq]
    by_cases h : a = g <;> simp [h, ih]

theorem firstOccs_nodup (l : List Nat) : (firstOccs l).Nodup := by
  induction l with
  | nil => simp [firstOccs]
  | cons g rest ih =>
    rw [firstOccs, List.nodup_cons]
    constructor
    · simp [List.mem_filter]
    · exact List.Nodup.filter _ ih

theorem nAugPerGen_eq_zero (p : List GameRec) (g : Nat) (hg : g ∉ p.map GameRec.gen) :
    nAugPerGen p g = 0 := by
  unfold nAugPerGen gamesFor
  have hnil : p.filter (fun r => r.gen == g) = [] := by
    rw [List.filter_eq_nil_iff]
    intro r hr
    simp only [beq_iff_eq]
    exact fun e => hg (List.mem_map.mpr ⟨r, hr, e⟩)
  rw [hnil]
  rfl

theorem gamesAug_append (dbg p : List GameRec) (g : Nat) :
    ((List.filter (fun r => r.gen == g) (dbg ++ p)).map GameRec.rows).sum
      = ((dbg.filter (fun r => r.gen == g)).map GameRec.rows).sum + nAugPerGen p g := by
  simp [List.filter_append, nAugPerGen, gamesFor]

/-- Effect of one flush on the two aggregates and on uniqueness. -/
theorem flush_preserves_inv (p : List GameRec) (cg : Option Nat) (rt : Nat)
    (db : SelfPlayDB) (hU : MetaUnique db) (hInv : ∀ g, metaAug db g = gamesAug db g) :
    MetaUnique (flush_pending_games p cg rt db).1
    ∧ ∀ g, metaAug (flush_pending_games p cg rt db).1 g
        = gamesAug (flush_pending_games p cg rt db).1 g := by
  unfold flush_pending_games
  split
  · exact ⟨hU, hInv⟩
  · refine ⟨?_, ?_⟩
    · have h1 := metaUnique_foldl_flushStep p cg rt (firstOccs (p.map GameRec.gen)) db hU
      unfold MetaUnique at h1 ⊢
      simpa using h1
    · intro g
      have hfold := metaAug_foldl_flushStep p cg rt (firstOccs (p.map GameRec.gen)) db hU
        (firstOccs_nodup _) g
      have hM : metaAug ({ List.foldl (flushStep p cg rt) db (firstOccs (p.map GameRec.gen)) with
          games := (List.foldl (flushStep p cg rt) db
            (firstOccs (p.map GameRec.gen))).games ++ p } : SelfPlayDB) g
          = metaAug (List.foldl (flushStep p cg rt) db (firstOccs (p.map GameRec.gen))) g := rfl
      rw [hM, hfold, hInv g]
      have hGf : gamesAug ({ List.foldl (flushStep p cg rt) db (firstOccs (p.map GameRec.gen)) with
          games := (List.foldl (flushStep p cg rt) db
            (firstOccs (p.map GameRec.gen))).games ++ p } : SelfPlayDB) g
          = gamesAug (List.foldl (flushStep p cg rt) db (firstOccs (p.map GameRec.gen))) g
            + nAugPerGen p g := by
        unfold gamesAug
        exact gamesAug_append _ p g
      rw [hGf]
      have hGames : gamesAug (List.foldl (flushStep p cg rt) db (firstOccs (p.map GameRec.gen))) g
          = gamesAug db g := by
        unfold gamesAug
        rw [foldl_flushStep_games]
      rw [hGames]
      by_cases hmem : g ∈ firstOccs (p.map GameRec.gen)
      · simp [hmem]
      · have : g ∉ p.map GameRec.gen := fun h => hmem ((mem_firstOccs _ _).mpr h)
        simp [hmem, nAugPerGen_eq_zero p g this]

@[simp] theorem sTx_nil (seen : Bool) : singleTxnAux seen [] = true := rfl

@[simp] theorem sTx_recvFile (seen b : Bool) (rest : List Event) :
    singleTxnAux seen (Event.recvFile b :: rest) = singleTxnAux seen rest := by
  simp [singleTxnAux, isWriteEvent]

@[simp] theorem sTx_notify (seen : Bool) (n : Nat) (rest : List Event) :
    singleTxnAux seen (Event.notifyTraining n :: rest) = singleTxnAux seen rest := by
  simp [singleTxnAux, isWriteEvent]

@[simp] theorem sTx_sendQuit (seen : Bool) (rest : List Event) :
    singleTxnAux seen (Event.sendQuit :: rest) = singleTxnAux seen rest := by
  simp [singleTxnAux, isWriteEvent]

@[simp] theorem sTx_updateMeta (seen : Bool) (g : Nat) (rest : List Event) :
    singleTxnAux seen (Event.updateMeta g :: rest) = (!seen && singleTxnAux seen rest) := by
  simp [singleTxnAux, isWriteEvent]

@[simp] theorem sTx_insertGames (seen : Bool) (n : Nat) (rest : List Event) :
    singleTxnAux seen (Event.insertGames n :: rest) = (!seen && singleTxnAux seen rest) := by
  simp [singleTxnAux, isWriteEvent]

@[simp] theorem sTx_insertMetricsRow (seen : Bool) (rest : List Event) :
    singleTxnAux seen (Event.insertMetricsRow :: rest) = (!seen && singleTxnAux seen rest) := by
  simp [singleTxnAux, isWriteEvent]

@[simp] theorem sTx_commit (seen : Bool) (rest : List Event) :
    singleTxnAux seen (Event.commit :: rest) = (!seen && singleTxnAux true rest) := rfl

theorem sTx_updateMeta_append (l : List Nat) (rest : List Event) :
    singleTxnAux false (l.map Event.updateMeta ++ rest) = singleTxnAux false rest := by
  induction l with
  | nil => rfl
  | cons g l ih => simp [ih]

theorem sTx_flushEvents (p : List GameRec) (rest : List Event) :
    singleTxnAux false (flushEvents p ++ rest) = singleTxnAux false rest := by
  unfold flushEvents
  split
  · rfl
  · simp [List.append_assoc, sTx_updateMeta_append]

theorem handle_game_singleTxn (maxPos : Option Nat) (clientId : Nat) (msg : GameMsg)
    (connGen : Option Nat) (rt : Nat) (st : SPState) :
    singleTxn (handle_game maxPos clientId msg connGen rt st).2 = true := by
  unfold singleTxn handle_game
  by_cases hf : msg.flush <;> cases hc : msg.counters <;> by_cases hd : msg.done <;>
    simp [hf, hc, hd, List.append_assoc, sTx_flushEvents]

theorem handle_metrics_singleTxn (clientId : Nat) (msg : MetricsMsg) (connGen : Option Nat)
    (rt : Nat) (st : SPState) :
    singleTxn (handle_metrics clientId msg connGen rt st).2 = true := by
  unfold singleTxn handle_metrics
  simp [sTx_flushEvents]

theorem applyOps_inv (ops : List DBOp) (db : SelfPlayDB) (hU : MetaUnique db)
    (hInv : ∀ g, metaAug db g = gamesAug db g) :
    MetaUnique (applyOps ops db)
    ∧ ∀ g, metaAug (applyOps ops db) g = gamesAug (applyOps ops db) g := by
  induction ops generalizing db with
  | nil => exact ⟨hU, hInv⟩
  | cons op rest ih =>
    have hstep : applyOps (op :: rest) db = applyOps rest (applyOp db op) := rfl
    rw [hstep]
    cases op with
    | flushOp p cg rt =>
      have h := flush_preserves_inv p cg rt db hU hInv
      exact ih _ h.1 h.2
    | metricsOp c g t m =>
      refine ih _ (metaUnique_insert_metrics db c g t m hU) (fun g' => ?_)
      show metaAug (insert_metrics db c g t m) g' = gamesAug (insert_metrics db c g t m) g'
      rw [metaAug_insert_metrics, hInv g']
      rfl

/-- C4: starting from the empty self-play database, after any sequence of
committed transactions (flushes of pending games, metrics inserts) the
`augmented_positions` aggregate stored in `self_play_metadata` for each gen
equals the sum of the `augmented_positions` column over the `games` rows of
that gen; moreover, within each of `_handle_game` and `_handle_metrics`, the
game inserts and aggregate updates all precede the unique `commit` of the
transaction (they are committed together). -/
theorem C4_aggregate_matches_games :
    (∀ (ops : List DBOp) (g : Nat),
      metaAug (applyOps ops emptySelfPlayDB) g = gamesAug (applyOps ops emptySelfPlayDB) g)
    ∧ (∀ (maxPos : Option Nat) (clientId : Nat) (msg : GameMsg) (connGen : Option Nat)
        (rt : Nat) (st : SPState),
        singleTxn (handle_game maxPos clientId msg connGen rt st).2 = true)
    ∧ (∀ (clientId : Nat) (msg : MetricsMsg) (connGen : Option Nat) (rt : Nat) (st : SPState),
        singleTxn (handle_metrics clientId msg connGen rt st).2 = true) := by
  refine ⟨fun ops g => ?_, handle_game_singleTxn, handle_metrics_singleTxn⟩
  exact (applyOps_inv ops emptySelfPlayDB (by simp [MetaUnique, emptySelfPlayDB])
    (fun g' => rfl)).2 g

/-! ## Claim C3: pools closed on shutdown -/

/-- C3 (code bug): `close_db_conns` closes the clients, self-play and training
pools but leaves the ratings pool untouched, because
`DatabaseConnectionManager._pools` omits `ratings_db_conn_pool` from its list.
With every pool holding an open connection for thread 7, after
`close_db_conns(7)` the first three pools are empty while the ratings pool
still holds its connection — contradicting the claim (and spec) that all four
pools' connections are closed on clean shutdown. -/
theorem C3_ratings_pool_not_closed :
    let m : DatabaseConnectionManager := ⟨⟨[7]⟩, ⟨[7]⟩, ⟨[7]⟩, ⟨[7]⟩⟩
    (close_db_conns m 7).clients_db_conn_pool.openConns = []
    ∧ (close_db_conns m 7).self_play_db_conn_pool.openConns = []
    ∧ (close_db_conns m 7).training_db_conn_pool.openConns = []
    ∧ (close_db_conns m 7).ratings_db_conn_pool.openConns = [7] := by
  decide

/-! ## Claims C5 and C10: handshake uniqueness and rejection purity -/

theorem add_connection_any_iff (st : CCMState) (hs : Handshake) :
    (st.connections.any (fun c =>
        c.client_gpu_id == (hs.ip_address, hs.cuda_device) && c.client_role == hs.role)) = true
      ↔ ∃ c ∈ st.connections, c.client_role = hs.role
          ∧ c.client_gpu_id = (hs.ip_address, hs.cuda_device) := by
  simp only [List.any_eq_true, Bool.and_eq_true, beq_iff_eq]
  constructor
  · rintro ⟨c, hc, h1, h2⟩
    exact ⟨c, hc, h2, h1⟩
  · rintro ⟨c, hc, h1, h2⟩
    exact ⟨c, hc, h2, h1⟩

/-- C5: the pairwise-distinct `(role, gpu_id)` invariant on active
connections is preserved by `_add_connection`, and a handshake whose
`(role, gpu_id)` matches an existing active connection is answered with the
role/gpu-clash rejection and leaves the whole state (connections, manager
map, clients table) unchanged. -/
theorem C5_role_gpu_unique (st : CCMState) (hs : Handshake)
    (hD : RolesGpusDistinct st.connections) :
    RolesGpusDistinct (add_connection st hs).2.connections
    ∧ ((∃ c ∈ st.connections, c.client_role = hs.role
          ∧ c.client_gpu_id = (hs.ip_address, hs.cuda_device)) →
        (add_connection st hs).1
            = AddResult.rejected
                "connection of same role/cuda-device from same ip already exists"
          ∧ (add_connection st hs).2 = st) := by
  by_cases hclash : (st.connections.any (fun c =>
      c.client_gpu_id == (hs.ip_address, hs.cuda_device) && c.client_role == hs.role)) = true
  · constructor
    · have hst : (add_connection st hs).2 = st := by
        simp only [add_connection, if_pos hclash]
      rw [hst]
      exact hD
    · intro _
      constructor
      · simp [add_connection, hclash]
      · simp [add_connection, hclash]
  · have hnc : ∀ c ∈ st.connections,
        ¬(c.client_role = hs.role ∧ c.client_gpu_id = (hs.ip_address, hs.cuda_device)) := by
      intro c hc hcontra
      exact hclash ((add_connection_any_iff st hs).mpr ⟨c, hc, hcontra.1, hcontra.2⟩)
    refine ⟨?_, fun hex => absurd ((add_connection_any_iff st hs).mpr hex) hclash⟩
    have happend : ∀ cid : Nat,
        RolesGpusDistinct
          (st.connections ++ [(⟨cid, hs.role, hs.ip_address, hs.cuda_device⟩ : Conn)]) := by
      intro cid
      unfold RolesGpusDistinct
      rw [List.pairwise_append]
      refine ⟨hD, List.pairwise_singleton _ _, ?_⟩
      intro a ha b hb
      simp only [List.mem_singleton] at hb
      subst hb
      exact fun hcon => hnc a ha ⟨hcon.1, hcon.2⟩
    simp only [add_connection, if_neg hclash]
    cases hcid : lookupManagerId st.managerMap hs.manager_id with
    | none => exact happend _
    | some cid =>
      by_cases hreuse : (st.connections.any (fun c => c.client_id == cid)) = true
      · simp only [if_pos hreuse]
        exact hD
      · simp only [if_neg hreuse]
        cases hrow : st.clients.find? (fun r => r.id == cid) with
        | none => exact hD
        | some row =>
          by_cases hattr : (row.ip_address, row.role, row.cuda_device)
              = (hs.ip_address, hs.role, hs.cuda_device)
          · simp only [if_pos hattr]
            exact happend _
          · simp only [if_neg hattr]
            exact hD

/-- Witness for `C5_role_gpu_unique` at a concrete clashing handshake. -/
theorem C5_role_gpu_unique_witness :
    (add_connection
        ⟨[⟨1, "self-play-worker", "10.0.0.5", "cuda:0"⟩], [], []⟩
        ⟨"10.0.0.5", 4000, "self-play-worker", 99, "cuda:0", none⟩).1
      = AddResult.rejected
          "connection of same role/cuda-device from same ip already exists" := by
  have h := C5_role_gpu_unique
    ⟨[⟨1, "self-play-worker", "10.0.0.5", "cuda:0"⟩], [], []⟩
    ⟨"10.0.0.5", 4000, "self-play-worker", 99, "cuda:0", none⟩
    (by unfold RolesGpusDistinct; simp)
  exact (h.2 ⟨⟨1, "self-play-worker", "10.0.0.5", "cuda:0"⟩, by simp, rfl, rfl⟩).1

/-- C10: a handshake answered with any rejection leaves the `clients`
database untouched: no row is inserted or updated. -/
theorem C10_rejected_handshake_pure (st : CCMState) (hs : Handshake) (r : String)
    (hrej : (add_connection st hs).1 = AddResult.rejected r) :
    (add_connection st hs).2.clients = st.clients := by
  by_cases hclash : (st.connections.any (fun c =>
      c.client_gpu_id == (hs.ip_address, hs.cuda_device) && c.client_role == hs.role)) = true
  · simp only [add_connection, if_pos hclash]
  · simp only [add_connection, if_neg hclash] at hrej ⊢
    cases hcid : lookupManagerId st.managerMap hs.manager_id with
    | none =>
      rw [hcid] at hrej
      simp at hrej
    | some cid =>
      rw [hcid] at hrej
      by_cases hreuse : (st.connections.any (fun c => c.client_id == cid)) = true
      · simp only [if_pos hreuse]
      · simp only [if_neg hreuse] at hrej ⊢
        cases hrow : st.clients.find? (fun r' => r'.id == cid) with
        | none => rfl
        | some row =>
          rw [hrow] at hrej
          by_cases hattr : (row.ip_address, row.role, row.cuda_device)
              = (hs.ip_address, hs.role, hs.cuda_device)
          · simp only [if_pos hattr] at hrej
            simp at hrej
          · simp only [if_neg hattr]

/-- Witness for `C10_rejected_handshake_pure` at a concrete rejected
handshake (attribute mismatch on client-id reuse). -/
theorem C10_rejected_handshake_pure_witness :
    (add_connection
        ⟨[], [(5, 1)], [⟨1, "10.0.0.5", 4000, "self-play-worker", 99, "cuda:0"⟩]⟩
        ⟨"10.0.0.6", 4001, "self-play-worker", 100, "cuda:0", some 5⟩).2.clients
      = [⟨1, "10.0.0.5", 4000, "self-play-worker", 99, "cuda:0"⟩] :=
  C10_rejected_handshake_pure
    ⟨[], [(5, 1)], [⟨1, "10.0.0.5", 4000, "self-play-worker", 99, "cuda:0"⟩]⟩
    ⟨"10.0.0.6", 4001, "self-play-worker", 100, "cuda:0", some 5⟩
    "worker attributes changed since last connection"
    (by decide)

/-! ## Claim C6: global uniqueness and idempotence of ratings elevation -/

theorem elevated_filter_eq (tables : List GpuContentionTable)
    (hOK : ∀ t ∈ tables, t.ratings_prioritized = true → t.active_ratings = true) :
    (tables.filter (fun t => t.active_ratings)).filter (fun t => t.ratings_prioritized)
      = tables.filter (fun t => t.ratings_prioritized) := by
  induction tables with
  | nil => rfl
  | cons t rest ih =>
    have hOK' : ∀ u ∈ rest, u.ratings_prioritized = true → u.active_ratings = true :=
      fun u hu => hOK u (List.mem_cons_of_mem _ hu)
    by_cases hp : t.ratings_prioritized = true
    · have ha : t.active_ratings = true := hOK t (List.mem_cons_self t rest) hp
      simp [List.filter_cons, ha, hp, ih hOK']
    · by_cases ha : t.active_ratings = true <;>
        simp [List.filter_cons, ha, hp, ih hOK']

theorem elevatedCount_deprioritize (tables : List GpuContentionTable)
    (hOK : ∀ t ∈ tables, t.ratings_prioritized = true → t.active_ratings = true) :
    elevatedCount (tables.map (fun t =>
      if t.active_ratings && t.ratings_prioritized then deprioritizeRatings t else t)) = 0 := by
  unfold elevatedCount
  rw [List.length_eq_zero, List.filter_eq_nil_iff]
  intro x hx
  rcases List.mem_map.mp hx with ⟨a, ha, rfl⟩
  by_cases hc : (a.active_ratings && a.ratings_prioritized) = true
  · rw [if_pos hc]
    simp [deprioritizeRatings]
  · rw [if_neg hc]
    intro hp
    apply hc
    rw [hOK a ha hp, hp]
    rfl

theorem elevatedCount_prioritize_eq (tables : List GpuContentionTable)
    (chosen : GpuContentionTable) (h0 : elevatedCount tables = 0) :
    elevatedCount (tables.map (fun t => if sameTable t chosen then prioritizeRatings t else t))
      = (tables.filter (fun t => sameTable t chosen)).length := by
  induction tables with
  | nil => rfl
  | cons t rest ih =>
    have hp : t.ratings_prioritized = false := by
      cases hx : t.ratings_prioritized
      · rfl
      · exfalso
        unfold elevatedCount at h0
        rw [List.filter_cons, if_pos (by simp [hx])] at h0
        simp at h0
    have h0' : elevatedCount rest = 0 := by
      unfold elevatedCount at h0 ⊢
      rwa [List.filter_cons, if_neg (by simp [hp])] at h0
    have ihv := ih h0'
    unfold elevatedCount at ihv ⊢
    rw [List.map_cons, List.filter_cons, List.filter_cons]
    by_cases hk : (sameTable t chosen) = true
    · rw [if_pos hk, if_pos hk,
        if_pos (show (prioritizeRatings t).ratings_prioritized = true by
          simp [prioritizeRatings])]
      simp only [List.length_cons]
      omega
    · rw [if_neg hk, if_neg hk,
        if_neg (show ¬ t.ratings_prioritized = true by simp [hp])]
      exact ihv

theorem filter_sameTable_length (tables : List GpuContentionTable)
    (chosen : GpuContentionTable) (hmem : chosen ∈ tables)
    (hKeys : (tables.map (fun t => (t.ip_address, t.device))).Nodup) :
    (tables.filter (fun t => sameTable t chosen)).length = 1 := by
  induction tables with
  | nil => cases hmem
  | cons t rest ih =>
    rw [List.map_cons, List.nodup_cons] at hKeys
    rw [List.filter_cons]
    rcases List.mem_cons.mp hmem with rfl | hmem'
    · rw [if_pos (by simp [sameTable])]
      have hrest : rest.filter (fun u => sameTable u chosen) = [] := by
        rw [List.filter_eq_nil_iff]
        intro u hu hc
        simp only [sameTable, Bool.and_eq_true, beq_iff_eq] at hc
        exact hKeys.1 (by
          rw [← hc.1, ← hc.2]
          exact List.mem_map.mpr ⟨u, hu, rfl⟩)
      rw [hrest]
      rfl
    · have hne : sameTable t chosen = false := by
        by_contra hc
        have hc' : sameTable t chosen = true := by
          cases hx : sameTable t chosen
          · exact absurd hx hc
          · rfl
        simp only [sameTable, Bool.and_eq_true, beq_iff_eq] at hc'
        exact hKeys.1 (by
          rw [hc'.1, hc'.2]
          exact List.mem_map.mpr ⟨chosen, hmem', rfl⟩)
      rw [if_neg (by simp [hne])]
      exact ih hmem' hKeys.2

theorem firstMinBy_mem :
    ∀ (l : List GpuContentionTable) (u : GpuContentionTable), firstMinBy l = some u → u ∈ l := by
  intro l
  induction l with
  | nil => intro u h; cases h
  | cons t rest ih =>
    intro u h
    simp only [firstMinBy] at h
    cases hr : firstMinBy rest with
    | none =>
      rw [hr] at h
      cases h
      exact List.mem_cons_self _ _
    | some v =>
      rw [hr] at h
      have h' : (if boolPairLt (ratingsSortKey v) (ratingsSortKey t) = true
          then some v else some t) = some u := h
      by_cases hlt : boolPairLt (ratingsSortKey v) (ratingsSortKey t) = true
      · rw [if_pos hlt] at h'
        cases h'
        exact List.mem_cons_of_mem _ (ih _ hr)
      · rw [if_neg hlt] at h'
        cases h'
        exact List.mem_cons_self _ _

/-- C6: assuming every elevated table is ratings-active (the invariant the
manager's `assert` encodes) and at most one table is elevated globally, with
distinct `(host, device)` keys: `set_ratings_priority` succeeds and leaves at
most one table elevated; and when some table is already elevated,
`set_ratings_priority(elevate=True)` returns the state unchanged — the
elevated table stays elevated and no other table is elevated. -/
theorem C6_ratings_priority (tables : List GpuContentionTable) (elevate : Bool)
    (hOK : ∀ t ∈ tables, t.ratings_prioritized = true → t.active_ratings = true)
    (hLe : elevatedCount tables ≤ 1)
    (hKeys : (tables.map (fun t => (t.ip_address, t.device))).Nodup) :
    (∃ tables', set_ratings_priority tables elevate = some tables'
        ∧ elevatedCount tables' ≤ 1)
    ∧ (elevatedCount tables = 1 → set_ratings_priority tables true = some tables) := by
  have helev : (tables.filter (fun t => t.active_ratings)).filter
        (fun t => t.ratings_prioritized)
      = tables.filter (fun t => t.ratings_prioritized) := elevated_filter_eq tables hOK
  have hlen : ((tables.filter (fun t => t.active_ratings)).filter
      (fun t => t.ratings_prioritized)).length ≤ 1 := by
    rw [helev]
    exact hLe
  constructor
  · unfold set_ratings_priority
    by_cases hrt : tables.filter (fun t => t.active_ratings) = []
    · rw [if_pos hrt]
      exact ⟨tables, rfl, hLe⟩
    · rw [if_neg hrt, if_neg (by omega)]
      cases elevate with
      | false =>
        simp only [Bool.not_false, if_pos]
        exact ⟨_, rfl, by rw [elevatedCount_deprioritize tables hOK]; omega⟩
      | true =>
        simp only [Bool.not_true, Bool.false_eq_true, if_neg]
        by_cases hone : ((tables.filter (fun t => t.active_ratings)).filter
            (fun t => t.ratings_prioritized)).length = 1
        · rw [if_pos hone]
          exact ⟨tables, rfl, hLe⟩
        · rw [if_neg hone]
          have h0 : elevatedCount tables = 0 := by
            unfold elevatedCount
            rw [← helev]
            omega
          cases hmin : firstMinBy (tables.filter (fun t => t.active_ratings)) with
          | none =>
            exact ⟨tables, rfl, hLe⟩
          | some chosen =>
            refine ⟨_, rfl, ?_⟩
            rw [elevatedCount_prioritize_eq tables chosen h0,
              filter_sameTable_length tables chosen
                (List.mem_of_mem_filter (firstMinBy_mem _ _ hmin)) hKeys]
  · intro h1
    unfold set_ratings_priority
    have hne : tables.filter (fun t => t.active_ratings) ≠ [] := by
      unfold elevatedCount at h1
      rcases List.length_eq_one.mp h1 with ⟨a, ha⟩
      have hamem : a ∈ tables.filter (fun t => t.ratings_prioritized) := by
        rw [ha]
        exact List.mem_cons_self _ _
      rcases List.mem_filter.mp hamem with ⟨haT, hap⟩
      intro hnil
      have : a ∈ tables.filter (fun t => t.active_ratings) :=
        List.mem_filter.mpr ⟨haT, hOK a haT (by simpa using hap)⟩
      rw [hnil] at this
      cases this
    rw [if_neg hne, if_neg (by omega)]
    have hone : ((tables.filter (fun t => t.active_ratings)).filter
        (fun t => t.ratings_prioritized)).length = 1 := by
      rw [helev]
      exact h1
    rw [if_pos hone]
    simp

/-- Witness for `C6_ratings_priority`: two tables on one host, ratings
elevated on device 0; elevating again keeps the state unchanged. -/
theorem C6_ratings_priority_witness :
    (∃ tables', set_ratings_priority
        [⟨"host", "0", false, false, true, true, false⟩,
         ⟨"host", "1", true, true, true, false, true⟩] true = some tables'
      ∧ elevatedCount tables' ≤ 1)
    ∧ (elevatedCount
          [⟨"host", "0", false, false, true, true, false⟩,
           ⟨"host", "1", true, true, true, false, true⟩] = 1 →
        set_ratings_priority
          [⟨"host", "0", false, false, true, true, false⟩,
           ⟨"host", "1", true, true, true, false, true⟩] true
        = some [⟨"host", "0", false, false, true, true, false⟩,
                ⟨"host", "1", true, true, true, false, true⟩]) :=
  C6_ratings_priority
    [⟨"host", "0", false, false, true, true, false⟩,
     ⟨"host", "1", true, true, true, false, true⟩] true
    (by decide) (by decide) (by decide)

/-! ## Claim C7: training lock-table switcheroo -/

/-- C7: when the default training GPU's table is requested, if TRAINING holds
the highest priority there it is returned; if not, and every other table on
the host has TRAINING as its highest-priority domain (the branch the code's
`assert` enforces) and at least one other table exists, the table returned is
one of those other tables, with TRAINING highest there. -/
theorem C7_training_switcheroo (subtable : List GpuContentionTable)
    (ip dev : String) (dt : GpuContentionTable)
    (hip : ∀ t ∈ subtable, t.ip_address = ip)
    (hfind : subtable.find? (fun t => t.device == dev) = some dt) :
    (dt.training_highest = true →
      get_gpu_lock_table_for_training subtable ip dev = some dt)
    ∧ (dt.training_highest = false →
        (∀ t ∈ subtable, t.device ≠ dev → t.training_highest = true) →
        (∃ t ∈ subtable, t.device ≠ dev) →
        ∃ u, get_gpu_lock_table_for_training subtable ip dev = some u
          ∧ u ∈ subtable ∧ u.device ≠ dev ∧ u.training_highest = true) := by
  have hred : get_gpu_lock_table_for_training subtable ip dev
      = (if dt.training_highest = true then some dt
        else match subtable.find? (fun t => !(t.ip_address == ip && t.device == dev)) with
          | some other => if other.training_highest = true then some other else none
          | none => some dt) := by
    unfold get_gpu_lock_table_for_training
    rw [hfind]
  constructor
  · intro hh
    rw [hred, if_pos hh]
  · intro hh hothers hex
    rw [hred, if_neg (by simp [hh])]
    cases hf2 : subtable.find?
        (fun t => !(t.ip_address == ip && t.device == dev)) with
    | none =>
      exfalso
      rcases hex with ⟨t, ht, hdev⟩
      have hcontra := List.find?_eq_none.mp hf2 t ht
      simp only [Bool.not_eq_true', Bool.not_eq_false, Bool.and_eq_true, beq_iff_eq]
        at hcontra
      exact hdev hcontra.2
    | some other =>
      have hp := List.find?_some hf2
      have hmem := List.mem_of_find?_eq_some hf2
      have hdev : other.device ≠ dev := by
        simp only [Bool.not_eq_true', Bool.and_eq_false_iff, beq_eq_false_iff_ne] at hp
        rcases hp with h1 | h2
        · exact absurd (hip other hmem) h1
        · exact h2
      have hth : other.training_highest = true := hothers other hmem hdev
      refine ⟨other, ?_, hmem, hdev, hth⟩
      show (if other.training_highest = true then some other else none) = some other
      rw [if_pos hth]

/-- Witness for `C7_training_switcheroo`: two tables on one host; TRAINING is
outranked on the default device 0 and highest on device 1, so the device-1
table is returned. -/
theorem C7_training_switcheroo_witness :
    ∃ u, get_gpu_lock_table_for_training
        [⟨"host", "0", true, true, true, true, false⟩,
         ⟨"host", "1", true, false, false, false, true⟩] "host" "0" = some u
      ∧ u ∈ [(⟨"host", "0", true, true, true, true, false⟩ : GpuContentionTable),
             ⟨"host", "1", true, false, false, false, true⟩]
      ∧ u.device ≠ "0" ∧ u.training_highest = true :=
  (C7_training_switcheroo
      [⟨"host", "0", true, true, true, true, false⟩,
       ⟨"host", "1", true, false, false, false, true⟩] "host" "0"
      ⟨"host", "0", true, true, true, true, false⟩
      (by decide) (by decide)).2 rfl (by decide)
    ⟨⟨"host", "1", true, false, false, false, true⟩, by decide, by decide⟩

/-! ## Claim C2: lemmas about decimal rendering and parsing -/

theorem digitChar_isDigit (d : Nat) : (digitChar d).isDigit = true := by
  unfold digitChar
  split_ifs <;> decide

theorem digitChar_toNat (d : Nat) (hd : d < 10) : (digitChar d).toNat = d + 48 := by
  interval_cases d <;> decide

theorem digitsVal_append_singleton (l : List Char) (c : Char) :
    digitsVal (l ++ [c]) = 10 * digitsVal l + (c.toNat - 48) := by
  simp only [digitsVal, List.foldl_append, List.foldl_cons, List.foldl_nil]
  omega

theorem digitsVal_natDigits (n : Nat) : digitsVal (natDigits n) = n := by
  induction n using Nat.strong_induction_on with
  | _ n ih =>
    rw [natDigits]
    split
    · next h =>
      simp only [digitsVal, List.foldl_cons, List.foldl_nil, digitChar_toNat n h]
      omega
    · next h =>
      rw [digitsVal_append_singleton,
        ih (n / 10) (Nat.div_lt_self (by omega) (by omega)),
        digitChar_toNat (n % 10) (Nat.mod_lt _ (by omega))]
      omega

theorem natDigits_ne_nil (n : Nat) : natDigits n ≠ [] := by
  rw [natDigits]
  split <;> simp

theorem natDigits_all_digit (n : Nat) : ∀ c ∈ natDigits n, c.isDigit = true := by
  induction n using Nat.strong_induction_on with
  | _ n ih =>
    rw [natDigits]
    split
    · next h =>
      intro c hc
      simp only [List.mem_singleton] at hc
      subst hc
      exact digitChar_isDigit _
    · next h =>
      intro c hc
      rcases List.mem_append.mp hc with h1 | h2
      · exact ih (n / 10) (Nat.div_lt_self (by omega) (by omega)) c h1
      · simp only [List.mem_singleton] at h2
        subst h2
        exact digitChar_isDigit _

/-! ### Tokenizer lemmas -/

theorem tokChars_nonDigits (s : List Char) (hne : s ≠ [])
    (hnd : ∀ c ∈ s, c.isDigit = false) : tokChars s = [NToken.str s] := by
  induction s with
  | nil => cases hne rfl
  | cons c cs ih =>
    simp only [tokChars]
    by_cases hcs : cs = []
    · subst hcs
      simp [tokChars, consChar, hnd c (List.mem_cons_self _ _)]
    · rw [ih hcs (fun d hd => hnd d (List.mem_cons_of_mem _ hd))]
      simp [consChar, hnd c (List.mem_cons_self _ _)]

theorem tokChars_digits_append (d s : List Char) (hdne : d ≠ [])
    (hd : ∀ c ∈ d, c.isDigit = true) (hsne : s ≠ [])
    (hs : ∀ c ∈ s, c.isDigit = false) :
    tokChars (d ++ s) = [NToken.num d, NToken.str s] := by
  induction d with
  | nil => cases hdne rfl
  | cons c cs ih =>
    rw [List.cons_append]
    simp only [tokChars]
    by_cases hcs : cs = []
    · subst hcs
      rw [List.nil_append, tokChars_nonDigits s hsne hs]
      simp [consChar, hd c (List.mem_cons_self _ _)]
    · rw [ih hcs (fun x hx => hd x (List.mem_cons_of_mem _ hx))]
      simp [consChar, hd c (List.mem_cons_self _ _)]

theorem tokChars_prefix_str (p l : List Char) (hpne : p ≠ [])
    (hp : ∀ c ∈ p, c.isDigit = false) (d : List Char) (rest : List NToken)
    (hl : tokChars l = NToken.num d :: rest) :
    tokChars (p ++ l) = NToken.str p :: NToken.num d :: rest := by
  induction p with
  | nil => cases hpne rfl
  | cons c cs ih =>
    rw [List.cons_append]
    simp only [tokChars]
    by_cases hcs : cs = []
    · subst hcs
      rw [List.nil_append, hl]
      simp [consChar, hp c (List.mem_cons_self _ _)]
    · rw [ih hcs (fun x hx => hp x (List.mem_cons_of_mem _ hx))]
      simp [consChar, hp c (List.mem_cons_self _ _)]

theorem tokChars_name (ext : List Char) (g : Nat) (hextne : ext ≠ [])
    (hext : ∀ c ∈ ext, c.isDigit = false) :
    tokChars (['g', 'e', 'n', '-'] ++ natDigits g ++ ext)
      = [NToken.str ['g', 'e', 'n', '-'], NToken.num (natDigits g), NToken.str ext] := by
  exact tokChars_prefix_str ['g', 'e', 'n', '-'] (natDigits g ++ ext) (by simp)
    (by decide) (natDigits g) [NToken.str ext]
    (tokChars_digits_append (natDigits g) ext (natDigits_ne_nil g)
      (natDigits_all_digit g) hextne hext)

/-! ### Comparator lemmas -/

theorem charCmp_self (c : Char) : charCmp c c = Ordering.eq := by
  simp [charCmp, Nat.compare_eq_eq]

theorem strCmp_self (s : List Char) : strCmp s s = Ordering.eq := by
  induction s with
  | nil => rfl
  | cons c cs ih => simp [strCmp, charCmp_self, ih]

theorem keyCmp_name_keys (p q da dbl : List Char) :
    keyCmp [NToken.str p, NToken.num da, NToken.str q]
      [NToken.str p, NToken.num dbl, NToken.str q]
      = compare (digitsVal da) (digitsVal dbl) := by
  simp only [keyCmp, tokCmp, strCmp_self]
  cases h : compare (digitsVal da) (digitsVal dbl) <;>
    simp [keyCmp, tokCmp, strCmp_self, h]

theorem natsortLEb_names (f : Nat → String) (ext : List Char)
    (hdata : ∀ g, (f g).data = ['g', 'e', 'n', '-'] ++ natDigits g ++ ext)
    (hextne : ext ≠ []) (hext : ∀ c ∈ ext, c.isDigit = false) (a b : Nat) :
    natsortLEb (f a) (f b) = decide (a ≤ b) := by
  unfold natsortLEb
  rw [hdata, hdata, tokChars_name ext a hextne hext, tokChars_name ext b hextne hext,
    keyCmp_name_keys, digitsVal_natDigits, digitsVal_natDigits]
  cases h : compare a b with
  | lt =>
    have hab := Nat.compare_eq_lt.mp h
    simp [Nat.le_of_lt hab]
  | eq =>
    have hab := Nat.compare_eq_eq.mp h
    simp [Nat.le_of_eq hab]
  | gt =>
    have hab := Nat.compare_eq_gt.mp h
    simp
    omega

/-! ### Sorting lemmas -/

theorem orderedInsertStr_map (f : Nat → String)
    (hf : ∀ a b, natsortLEb (f a) (f b) = decide (a ≤ b)) (a : Nat) (l : List Nat) :
    orderedInsertStr (f a) (l.map f) = (List.orderedInsert (· ≤ ·) a l).map f := by
  induction l with
  | nil => rfl
  | cons b bl ih =>
    simp only [List.map_cons, orderedInsertStr, List.orderedInsert]
    by_cases hab : a ≤ b
    · rw [if_pos (by rw [hf]; simpa using hab), if_pos hab, List.map_cons]
      rfl
    · rw [if_neg (by rw [hf]; simpa using hab), if_neg hab, List.map_cons, ih]

theorem natsorted_map (f : Nat → String)
    (hf : ∀ a b, natsortLEb (f a) (f b) = decide (a ≤ b)) (gs : List Nat) :
    natsorted (gs.map f) = (List.insertionSort (· ≤ ·) gs).map f := by
  induction gs with
  | nil => rfl
  | cons g rest ih =>
    simp only [List.map_cons, natsorted, List.foldr_cons, List.insertionSort]
    have : natsorted (rest.map f) = (List.insertionSort (· ≤ ·) rest).map f := ih
    unfold natsorted at this
    rw [this]
    exact orderedInsertStr_map f hf g _

theorem sorted_le_getLast (l : List Nat) (hs : l.Sorted (· ≤ ·)) :
    ∀ x ∈ l, ∃ m, l.getLast? = some m ∧ x ≤ m := by
  induction l with
  | nil =>
    intro x hx
    cases hx
  | cons a rest ih =>
    intro x hx
    cases rest with
    | nil =>
      simp only [List.mem_singleton] at hx
      exact ⟨a, rfl, le_of_eq hx⟩
    | cons b bl =>
      have hs' : (b :: bl).Sorted (· ≤ ·) := hs.of_cons
      have hab : a ≤ b := (List.sorted_cons.mp hs).1 b (List.mem_cons_self _ _)
      rcases List.mem_cons.mp hx with rfl | hx'
      · rcases ih hs' b (List.mem_cons_self _ _) with ⟨m, hm, hbm⟩
        exact ⟨m, by rwa [List.getLast?_cons_cons], le_trans hab hbm⟩
      · rcases ih hs' x hx' with ⟨m, hm, hxm⟩
        exact ⟨m, by rwa [List.getLast?_cons_cons], hxm⟩

theorem le_maxOf (l : List Nat) (x : Nat) (hx : x ∈ l) : x ≤ maxOf l := by
  induction l with
  | nil => cases hx
  | cons a rest ih =>
    rcases List.mem_cons.mp hx with rfl | hx'
    · exact le_max_left _ _
    · exact le_trans (ih hx') (le_max_right _ _)

theorem maxOf_mem (l : List Nat) (h : l ≠ []) : maxOf l ∈ l := by
  induction l with
  | nil => cases h rfl
  | cons a rest ih =>
    by_cases hr : rest = []
    · subst hr
      simp [maxOf]
    · show max a (maxOf rest) ∈ a :: rest
      rcases max_choice a (maxOf rest) with h1 | h2
      · rw [h1]
        exact List.mem_cons_self _ _
      · rw [h2]
        exact List.mem_cons_of_mem _ (ih hr)

theorem getLast?_insertionSort_max (gs : List Nat) (h : gs ≠ []) :
    (List.insertionSort (· ≤ ·) gs).getLast? = some (maxOf gs) := by
  have hperm := List.perm_insertionSort (· ≤ ·) gs
  have hs := List.sorted_insertionSort (· ≤ ·) gs
  have hmem : maxOf gs ∈ List.insertionSort (· ≤ ·) gs :=
    hperm.mem_iff.mpr (maxOf_mem gs h)
  rcases sorted_le_getLast _ hs _ hmem with ⟨m, hm, hle⟩
  have hm_mem : m ∈ gs := by
    have hmm : m ∈ (List.insertionSort (· ≤ ·) gs).getLast? := by
      rw [hm]
      rfl
    rcases List.mem_getLast?_eq_getLast hmm with ⟨hne, heq⟩
    have hin := List.getLast_mem hne
    rw [← heq] at hin
    exact hperm.mem_iff.mp hin
  have hge : m ≤ maxOf gs := le_maxOf gs m hm_mem
  rw [hm, le_antisymm hge hle]

theorem getLast?_map_name (f : Nat → String) (l : List Nat) :
    (l.map f).getLast? = (l.getLast?).map f := by
  induction l with
  | nil => rfl
  | cons a rest ih =>
    cases rest with
    | nil => rfl
    | cons b bl =>
      simp only [List.map_cons, List.getLast?_cons_cons] at ih ⊢
      exact ih

/-! ### Parsing the generation back out of a file name -/

theorem splitOnChar_not_mem (sep : Char) (l : List Char) (h : sep ∉ l) :
    splitOnChar sep l = [l] := by
  induction l with
  | nil => rfl
  | cons c cs ih =>
    have hc : ¬ c = sep := fun e => h (e ▸ List.mem_cons_self _ _)
    have hcs : sep ∉ cs := fun e => h (List.mem_cons_of_mem _ e)
    simp only [splitOnChar, ih hcs, if_neg hc]

theorem splitOnChar_append (sep : Char) (l1 l2 : List Char) (h1 : sep ∉ l1) :
    splitOnChar sep (l1 ++ sep :: l2) = l1 :: splitOnChar sep l2 := by
  induction l1 with
  | nil =>
    simp [splitOnChar]
  | cons c cs ih =>
    have hc : ¬ c = sep := fun e => h1 (e ▸ List.mem_cons_self _ _)
    have hcs : sep ∉ cs := fun e => h1 (List.mem_cons_of_mem _ e)
    rw [List.cons_append]
    simp only [splitOnChar, ih hcs, if_neg hc]

theorem natDigits_not_mem (n : Nat) (c : Char) (hc : c.isDigit = false) :
    c ∉ natDigits n := by
  intro hmem
  have := natDigits_all_digit n c hmem
  rw [this] at hc
  cases hc

theorem pyInt_natDigits (g : Nat) : pyInt (natDigits g) = some g := by
  unfold pyInt
  rw [if_neg (natDigits_ne_nil g),
    if_pos (List.all_eq_true.mpr (natDigits_all_digit g)), digitsVal_natDigits]

/-- Parsing `gen-{g}{ext}` where the extension starts with a dot and contains
no digit, no slash and no dash after the dot. -/
theorem pathInfoGen_name (f : Nat → String) (etail : List Char) (g : Nat)
    (hdata : ∀ n, (f n).data = ['g', 'e', 'n', '-'] ++ natDigits n ++ ('.' :: etail))
    (hslash : '/' ∉ etail) :
    pathInfoGen (f g) = some (Int.ofNat g) := by
  unfold pathInfoGen
  rw [hdata g]
  have hslash_all : '/' ∉ ['g', 'e', 'n', '-'] ++ natDigits g ++ ('.' :: etail) := by
    intro hmem
    rcases List.mem_append.mp hmem with h1 | h2
    · rcases List.mem_append.mp h1 with h1a | h1b
      · exact absurd h1a (by decide)
      · exact natDigits_not_mem g '/' (by decide) h1b
    · rcases List.mem_cons.mp h2 with h2c | h2d
      · cases h2c
      · exact hslash h2d
  have hdot : '.' ∉ ['g', 'e', 'n', '-'] ++ natDigits g := by
    intro hmem
    rcases List.mem_append.mp hmem with h1 | h2
    · exact absurd h1 (by decide)
    · exact natDigits_not_mem g '.' (by decide) h2
  have hsingle : ∀ l : List Char, ([l].getLastD ([] : List Char)) = l := fun l => rfl
  rw [splitOnChar_not_mem '/' _ hslash_all, hsingle,
    splitOnChar_append '.' (['g', 'e', 'n', '-'] ++ natDigits g) etail hdot]
  simp only [List.headD]
  have hsplit2 : ['g', 'e', 'n', '-'] ++ natDigits g
      = ['g', 'e', 'n'] ++ ('-' :: natDigits g) := rfl
  rw [hsplit2, splitOnChar_append '-' ['g', 'e', 'n'] (natDigits g) (by decide),
    splitOnChar_not_mem '-' (natDigits g) (natDigits_not_mem g '-' (by decide))]
  simp only [scanGenTokens, if_pos rfl, pyInt_natDigits]
  have hne : ¬ natDigits g = ['g', 'e', 'n'] := by
    intro he
    have := natDigits_all_digit g 'g' (he ▸ List.mem_cons_self _ _)
    cases this
  simp only [scanGenTokens, if_neg hne]
  simp

theorem isHiddenFile_name (f : Nat → String) (ext : List Char) (g : Nat)
    (hdata : ∀ n, (f n).data = ['g', 'e', 'n', '-'] ++ natDigits n ++ ext) :
    isHiddenFile (f g) = false := by
  unfold isHiddenFile
  rw [hdata g]
  rfl

/-- The latest-info pipeline over a directory of `gen-{g}{ext}` names. -/
theorem get_latest_info_names (f : Nat → String) (ext : List Char)
    (hdata : ∀ n, (f n).data = ['g', 'e', 'n', '-'] ++ natDigits n ++ ext)
    (hextne : ext ≠ []) (hext : ∀ c ∈ ext, c.isDigit = false)
    (gs : List Nat) (hg : gs ≠ []) :
    get_latest_info (gs.map f) = some (f (maxOf gs)) := by
  unfold get_latest_info get_ordered_subpaths
  have hle : ∀ a b : Nat, natsortLEb (f a) (f b) = decide (a ≤ b) :=
    natsortLEb_names f ext hdata hextne hext
  rw [natsorted_map f hle gs]
  rw [List.filter_eq_self.mpr ?hall]
  case hall =>
    intro x hx
    rcases List.mem_map.mp hx with ⟨a, _, rfl⟩
    rw [isHiddenFile_name f ext a hdata]
    rfl
  rw [getLast?_map_name, getLast?_insertionSort_max gs hg]
  rfl

theorem latest_model_generation_names (gs : List Nat) (hg : gs ≠ []) :
    get_latest_model_generation (gs.map get_model_filename)
      = some (Int.ofNat (maxOf gs)) := by
  have hinfo : get_latest_info (gs.map get_model_filename)
      = some (get_model_filename (maxOf gs)) :=
    get_latest_info_names get_model_filename ['.', 'p', 't', 'j'] (fun n => rfl)
      (by simp) (by decide) gs hg
  unfold get_latest_model_generation
  rw [hinfo]
  exact pathInfoGen_name get_model_filename ['p', 't', 'j'] (maxOf gs) (fun n => rfl)
    (by decide)

theorem latest_player_generation_names (ps : List Nat) (hp : ps ≠ []) :
    get_latest_player_generation (ps.map get_player_filename)
      = some (Int.ofNat (maxOf ps)) := by
  have hinfo : get_latest_info (ps.map get_player_filename)
      = some (get_player_filename (maxOf ps)) :=
    get_latest_info_names get_player_filename ['.', 't', 'x', 't'] (fun n => rfl)
      (by simp) (by decide) ps hp
  unfold get_latest_player_generation
  rw [hinfo]
  exact pathInfoGen_name get_player_filename ['t', 'x', 't'] (maxOf ps) (fun n => rfl)
    (by decide)

/-- C2 (counterexample): with `models/` holding `gen-1.ptj` and `players/`
holding `gen-1.txt` and `gen-2.txt`, the code's latest-generation lookup
returns 1 (the *min*), while the claim says it returns the max, 2. -/
theorem C2_latest_generation_not_max :
    get_latest_generation ["gen-1.ptj"] ["gen-1.txt", "gen-2.txt"] = some 1
    ∧ get_latest_generation_spec ["gen-1.ptj"] ["gen-1.txt", "gen-2.txt"] = some 2
    ∧ (1 : Int) ≠ 2 := by
  refine ⟨by decide, by decide, by decide⟩

/-- C2 (amended): for every pair of non-empty directory listings of
well-formed names `gen-{g}.ptj` / `gen-{g}.txt`, `get_latest_generation`
returns the *minimum* of the largest model generation and the largest
player-file generation, whereas the spec's wording (`max`) computes the
maximum. -/
theorem C2_latest_generation_min (gs ps : List Nat) (hg : gs ≠ []) (hp : ps ≠ []) :
    get_latest_generation (gs.map get_model_filename) (ps.map get_player_filename)
      = some (min (Int.ofNat (maxOf gs)) (Int.ofNat (maxOf ps)))
    ∧ get_latest_generation_spec (gs.map get_model_filename) (ps.map get_player_filename)
      = some (max (Int.ofNat (maxOf gs)) (Int.ofNat (maxOf ps))) := by
  have h1 := latest_model_generation_names gs hg
  have h2 := latest_player_generation_names ps hp
  constructor
  · unfold get_latest_generation
    rw [h1, h2]
  · unfold get_latest_generation_spec
    rw [h1, h2]

/-- Witness for `C2_latest_generation_min` at concrete directory listings. -/
theorem C2_latest_generation_min_witness :
    get_latest_generation ([2, 10].map get_model_filename) ([3].map get_player_filename)
      = some (min (Int.ofNat (maxOf [2, 10])) (Int.ofNat (maxOf [3])))
    ∧ get_latest_generation_spec ([2, 10].map get_model_filename)
        ([3].map get_player_filename)
      = some (max (Int.ofNat (maxOf [2, 10])) (Int.ofNat (maxOf [3]))) :=
  C2_latest_generation_min [2, 10] [3] (by decide) (by decide)
